import Mathlib

/-!
Verification development for the ccsds123 codec (CCSDS 123.0-B-2 predictor and
sample-adaptive Golomb coder).  The definitions below shallowly embed the C++
sources: machine integers are modelled as Nat/Int, with explicit reductions
modulo powers of two exactly where the C++ relies on defined wrap-around
(unsigned casts and two-complement stores).  Division written with the Int
slash below is Euclidean division, which coincides with floor division (the
semantics of an arithmetic right shift) whenever the divisor is a positive
power of two, as it is everywhere in this file.
-/

namespace Ccsds123

/-- Local-sum mode enumeration (Ccsds123Codec.hpp, Params::LocalSumMode). -/
inductive LocalSumMode where
  | NeighborWide
  | NeighborNarrow
  | ColumnWide
  | ColumnNarrow
  deriving DecidableEq

/-- Numeric value of a LocalSumMode as stored in the container header. -/
def LocalSumMode.toVal : LocalSumMode → ℕ
  | .NeighborWide => 0
  | .NeighborNarrow => 1
  | .ColumnWide => 2
  | .ColumnNarrow => 3

/-- Inverse of LocalSumMode.toVal used by the header parser (values above 3
never occur in containers written by this codec). -/
def LocalSumMode.ofVal : ℕ → LocalSumMode
  | 0 => .NeighborWide
  | 1 => .NeighborNarrow
  | 2 => .ColumnWide
  | 3 => .ColumnNarrow
  | _ => .NeighborWide

/-- Sample-adaptive coder parameters (Ccsds123Codec.hpp, SampleAdaptiveCoderParams). -/
structure CoderParams where
  u_max : ℤ := 18
  counter_size : ℤ := 6
  initial_count_exponent : ℤ := 1
  kz_prime : ℤ := 0
  deriving DecidableEq

/-- Codec parameters (Ccsds123Codec.hpp, Params).  The unused prediction
vectors phi/psi/az/rz are omitted: nothing in the scalar pipeline reads them. -/
structure Params where
  NX : ℤ := 0
  NY : ℤ := 0
  NZ : ℤ := 0
  D : ℤ := 0
  P : ℤ := 0
  reduced : Bool := false
  column_oriented : Bool := false
  local_sum : LocalSumMode := .NeighborNarrow
  theta : ℤ := 0
  omega : ℤ := 19
  register_bits : ℤ := 64
  v_min : ℤ := -1
  v_max : ℤ := 3
  tinc_log : ℤ := 6
  coder : CoderParams := {}
  deriving DecidableEq

/-- Embeds validate_params (part_005).  True means the parameter set is
accepted; each conjunct matches one throw site, in source order. -/
def validateParams (p : Params) : Bool :=
  ¬(p.NX ≤ 0 ∨ p.NY ≤ 0 ∨ p.NZ ≤ 0) ∧
  ¬(p.D ≤ 0 ∨ p.D > 16) ∧
  p.P = 0 ∧
  ¬p.reduced ∧
  p.local_sum = LocalSumMode.NeighborNarrow ∧
  p.theta = 0 ∧
  ¬(p.omega ≤ 0 ∨ p.omega > 31) ∧
  ¬(p.register_bits ≤ 0 ∨ p.register_bits > 64) ∧
  ¬(p.v_min > p.v_max) ∧
  ¬(p.coder.u_max ≤ 0 ∨ p.coder.u_max > 32) ∧
  ¬(p.coder.counter_size ≤ 0 ∨ p.coder.counter_size > 16) ∧
  ¬(p.coder.initial_count_exponent < 0 ∨ p.coder.initial_count_exponent > 16) ∧
  ¬(p.coder.kz_prime < 0 ∨ p.coder.kz_prime > 16)

/-- Error kinds surfaced by encode and decode, named semantically after the
throw sites in part_005. -/
inductive Err where
  | invalidParams
  | inputSizeMismatch
  | containerTooSmall
  | invalidContainer
  | outputSizeMismatch
  | truncatedPayload
  deriving DecidableEq

namespace Modules

/-- Embeds clip_int64 (modules.cpp). -/
def clip (value lo hi : ℤ) : ℤ := min (max value lo) hi

/-- Arithmetic right shift of an int64 by a nonnegative amount: floor division
by a power of two, which is what Int Euclidean division computes here. -/
def asr (v : ℤ) (k : ℕ) : ℤ := v / 2 ^ k

/-- Embeds sign_extend (modules.cpp): reinterpret the low bits of value as a
two-complement quantity of the given width. -/
def sign_extend (value : ℤ) (bits : ℤ) : ℤ :=
  if bits ≤ 0 ∨ bits ≥ 64 then value
  else
    let m := value % 2 ^ bits.toNat
    if 2 ^ (bits.toNat - 1) ≤ m then m - 2 ^ bits.toNat else m

/-- Embeds mod_pow2 (modules.cpp): reduce into an R-bit signed register.  The
bitwise-and with the low mask on an int64 equals the nonnegative remainder. -/
def mod_pow2 (value : ℤ) (bits : ℤ) : ℤ :=
  if bits ≤ 0 then 0
  else if bits ≥ 64 then value
  else sign_extend (value % 2 ^ bits.toNat) bits

/-- Embeds theta_from_pred (modules.cpp): distance from the prediction to the
nearer boundary of the signed dynamic range. -/
def theta_from_pred (pred : ℤ) (depth : ℕ) : ℤ :=
  min (pred + 2 ^ (depth - 1)) (2 ^ (depth - 1) - 1 - pred)

/-- Embeds is_even (modules.cpp): the low two-complement bit of an int64 is
clear exactly when the value is even. -/
def is_even (v : ℤ) : Prop := v % 2 = 0

instance (v : ℤ) : Decidable (is_even v) := by unfold is_even; infer_instance

/-- Embeds ccsds123::modules::residual_map (modules.cpp), returning the mapped
residual delta (the .delta field of ResidualMapperResult). -/
def residual_map (sample : ℤ) (scaled_pred : ℤ) (depth : ℕ) : ℤ :=
  let pred := asr scaled_pred 1
  let residual := sample - pred
  let theta := theta_from_pred pred depth
  let abs_res : ℤ := residual.natAbs
  if abs_res > theta then
    abs_res + theta
  else if (is_even scaled_pred ∧ residual ≥ 0) ∨ (¬is_even scaled_pred ∧ residual ≤ 0) then
    2 * abs_res
  else
    2 * abs_res - 1

/-- Embeds ccsds123::modules::residual_unmap (modules.cpp), including the
final re-sign branch for reconstructions that fall outside the signed range. -/
def residual_unmap (delta : ℤ) (scaled_pred : ℤ) (depth : ℕ) : ℤ :=
  let pred := asr scaled_pred 1
  let theta := theta_from_pred pred depth
  let residual :=
    if delta > theta * 2 then
      if is_even scaled_pred then delta - theta else -(delta - theta)
    else if delta % 2 = 0 then
      if is_even scaled_pred then delta / 2 else -(delta / 2)
    else
      if is_even scaled_pred then -((delta + 1) / 2) else (delta + 1) / 2
  let offset : ℤ := 2 ^ (depth - 1)
  let sample := pred + residual
  if sample < -offset ∨ sample > offset - 1 then -residual else residual

end Modules

/-- Control flags emitted once per sample (modules.hpp, CtrlSignals). -/
structure CtrlSignals where
  first_line : Bool := false
  first_in_line : Bool := false
  last_in_line : Bool := false
  last : Bool := false
  scale_exponent : ℤ := 0
  deriving DecidableEq

/-- Scan controller configuration (modules.hpp, ControlConfig).  The validated
dimensions are positive, so they are carried as naturals; the signed
scale-exponent schedule fields stay integers.  tinc_log is a natural because a
negative shift count would be undefined in the source. -/
structure ControlConfig where
  nx : ℕ
  ny : ℕ
  nz : ℕ
  v_min : ℤ
  v_max : ℤ
  tinc_log : ℕ
  deriving DecidableEq

/-- Mutable cursor of the scan controller (modules.hpp, ControlState). -/
structure CtrlCursor where
  x : ℕ := 0
  y : ℕ := 0
  z : ℕ := 0
  t : ℕ := 0
  deriving DecidableEq

/-- Output of one controller step (modules.hpp, ControlState::Output). -/
structure CtrlOutput where
  ctrl : CtrlSignals
  z : ℕ
  deriving DecidableEq

/-- Embeds ccsds123::modules::ControlState::step (modules.cpp): emit the flags
for the current cell, then advance the cursor in BIP order. -/
def control_step (cfg : ControlConfig) (st : CtrlCursor) : CtrlOutput × CtrlCursor :=
  let t_adjusted : ℤ := (st.t : ℤ) - (cfg.nx : ℤ)
  let limit : ℤ := cfg.v_max - cfg.v_min
  let scale : ℤ :=
    if t_adjusted ≤ 0 then cfg.v_min
    else if t_adjusted ≥ limit * 2 ^ cfg.tinc_log then cfg.v_max
    else cfg.v_min + t_adjusted / 2 ^ cfg.tinc_log
  let out : CtrlOutput :=
    { ctrl :=
        { first_line := st.y = 0
          first_in_line := st.x = 0
          last_in_line := st.x = cfg.nx - 1
          last := st.x = cfg.nx - 1 ∧ st.y = cfg.ny - 1 ∧ st.z = cfg.nz - 1
          scale_exponent := scale }
      z := st.z }
  let st' : CtrlCursor :=
    if st.z + 1 > cfg.nz - 1 then
      let spatial_limit := cfg.nx * cfg.ny
      let t' := if spatial_limit > 0 then (st.t + 1) % spatial_limit else st.t + 1
      if st.x = cfg.nx - 1 then
        if st.y = cfg.ny - 1 then { x := 0, y := 0, z := 0, t := t' }
        else { x := 0, y := st.y + 1, z := 0, t := t' }
      else { x := st.x + 1, y := st.y, z := 0, t := t' }
    else { st with z := st.z + 1 }
  (out, st')

/-- Iterated controller state after n steps from the origin. -/
def control_iter (cfg : ControlConfig) : ℕ → CtrlCursor
  | 0 => {}
  | n + 1 => (control_step cfg (control_iter cfg n)).2

/-- Output emitted at (0-indexed) step n. -/
def control_output (cfg : ControlConfig) (n : ℕ) : CtrlOutput :=
  (control_step cfg (control_iter cfg n)).1

namespace Modules

/-- Neighborhood of centered samples (modules.hpp, LocalSamples). -/
structure LocalSamples where
  cur : ℤ := 0
  north : ℤ := 0
  north_east : ℤ := 0
  north_west : ℤ := 0
  west : ℤ := 0
  deriving DecidableEq

/-- Local sum and directional differences (modules.hpp, LocalDiffOutput). -/
structure LocalDiffOutput where
  local_sum : ℤ := 0
  d_c : ℤ := 0
  d_n : ℤ := 0
  d_w : ℤ := 0
  d_nw : ℤ := 0
  deriving DecidableEq

/-- Embeds ccsds123::modules::local_diff (modules.cpp). -/
def local_diff (ctrl : CtrlSignals) (samples : LocalSamples) (column_oriented : Bool) :
    LocalDiffOutput :=
  let terms : ℤ × ℤ :=
    if column_oriented then
      if ¬ctrl.first_line then (4 * samples.north, 0) else (4 * samples.west, 0)
    else
      if ¬ctrl.first_line ∧ ¬ctrl.first_in_line ∧ ¬ctrl.last_in_line then
        (samples.west + samples.north_west, samples.north + samples.north_east)
      else if ctrl.first_line ∧ ¬ctrl.first_in_line then
        (4 * samples.west, 0)
      else if ¬ctrl.first_line ∧ ctrl.first_in_line then
        (2 * samples.north, 2 * samples.north_east)
      else if ¬ctrl.first_line ∧ ctrl.last_in_line then
        (samples.west + samples.north_west, 2 * samples.north)
      else (0, 0)
  let base_sum := terms.1 + terms.2
  let local_sum := if ctrl.first_line ∧ ctrl.first_in_line then 0 else base_sum
  let d_c := if ctrl.first_line ∧ ctrl.first_in_line then 0 else 4 * samples.cur - local_sum
  let d_n := if ¬ctrl.first_line then 4 * samples.north - local_sum else 0
  let d_w :=
    if ¬ctrl.first_line then
      (if ¬ctrl.first_in_line then 4 * samples.west - local_sum
       else 4 * samples.north - local_sum)
    else 0
  let d_nw :=
    if ¬ctrl.first_line then
      (if ¬ctrl.first_in_line then 4 * samples.north_west - local_sum
       else 4 * samples.north - local_sum)
    else 0
  { local_sum := local_sum, d_c := d_c, d_n := d_n, d_w := d_w, d_nw := d_nw }

/-- Embeds ccsds123::modules::dot_product (modules.cpp): sum over the common
length of the two vectors. -/
def dot_product (diffs : List ℤ) (weights : List ℤ) : ℤ :=
  (List.zipWith (fun d w => d * w) diffs weights).sum

/-- Cascade of default prediction weights: entry 0 is the base value and each
further entry divides the previous one by 8 (int64 division of nonnegative
quantities). -/
def weight_seed (base : ℤ) : ℕ → ℤ
  | 0 => base
  | i + 1 => weight_seed base i / 8

/-- Embeds ccsds123::modules::init_weights (modules.cpp).  The source writes
the cascade into entries 0 ≤ i < p where p = components in reduced mode and
p = components - 3 otherwise (skipping the loop when p is not positive), then
zeroes the final three entries in full mode; entry i therefore holds the
cascade value exactly when i < p, and zero otherwise. -/
def init_weights (reduced : Bool) (omega : ℤ) (components : ℕ) : List ℤ :=
  let p := if reduced then components else components - 3
  let base : ℤ := 7 * 2 ^ omega.toNat / 8
  (List.range components).map (fun i => if i < p then weight_seed base i else 0)

/-- Inputs of the predictor (modules.hpp, PredictorInputs). -/
structure PredictorInputs where
  ctrl : CtrlSignals
  depth : ℤ := 0
  omega : ℤ := 0
  rbits : ℤ := 0
  prev_band_sample : ℤ := 0
  numerator : ℤ := 0
  local_sum : ℤ := 0
  deriving DecidableEq

/-- Result of the predictor (modules.hpp, PredictorResult). -/
structure PredictorResult where
  predicted : ℤ := 0
  scaled_pred : ℤ := 0
  deriving DecidableEq

/-- Embeds ccsds123::modules::predictor (modules.cpp). -/
def predictor (inputs : PredictorInputs) : PredictorResult :=
  let loc_term : ℤ := inputs.local_sum * 2 ^ inputs.omega.toNat
  let temp := inputs.numerator + loc_term
  let numerator := mod_pow2 temp inputs.rbits
  let scaled_pred : ℤ :=
    if inputs.ctrl.first_line ∧ inputs.ctrl.first_in_line then
      if inputs.prev_band_sample ≥ 0 then inputs.prev_band_sample * 2 else 0
    else
      let shifted := asr numerator (inputs.omega + 1).toNat
      let candidate := shifted + 1
      clip candidate (-(2 ^ inputs.depth.toNat)) (2 ^ inputs.depth.toNat - 1)
  { predicted := asr scaled_pred 1, scaled_pred := scaled_pred }

/-- Inputs of the weight updater (modules.hpp, WeightUpdateInputs).  The
v_min/v_max fields of the source struct are carried but never read by the
update itself. -/
structure WeightUpdateInputs where
  ctrl : CtrlSignals
  depth : ℤ := 0
  omega : ℤ := 0
  v_min : ℤ := 0
  v_max : ℤ := 0
  scaled_pred : ℤ := 0
  sample : ℤ := 0
  diffs : List ℤ := []
  deriving DecidableEq

/-- Embeds ccsds123::modules::weight_update (modules.cpp).  The imperative
loop updates entry i for i below the common length of weights and diffs; the
zipWith together with the untouched tail renders that exactly. -/
def weight_update (weights : List ℤ) (inputs : WeightUpdateInputs) (reduced : Bool) :
    List ℤ :=
  if weights.isEmpty then weights
  else if inputs.ctrl.first_line ∧ inputs.ctrl.first_in_line then
    init_weights reduced inputs.omega weights.length
  else
    let non_negative_error := inputs.sample * 2 ≥ inputs.scaled_pred
    let shift := inputs.ctrl.scale_exponent + (inputs.depth - inputs.omega)
    let limit : ℤ := 2 ^ (inputs.omega + 2).toNat
    List.zipWith (fun wi di =>
        let diff : ℤ := if non_negative_error then di else -di
        let adjusted : ℤ :=
          if shift > 0 then diff / 2 ^ shift.toNat
          else if shift < 0 then diff * 2 ^ (-shift).toNat
          else diff
        let mux := (adjusted + 1) / 2
        clip (wi + mux) (-limit) (limit - 1))
      weights inputs.diffs ++ weights.drop inputs.diffs.length

end Modules

namespace HppModules

/-- Embeds modules::detail::arithmetic_shift_right (part_003): floor shift
implemented with toward-zero division on the two sign cases. -/
def arithmetic_shift_right (value : ℤ) (shift : ℕ) : ℤ :=
  if shift = 0 ∨ value = 0 then value
  else
    let divisor : ℤ := 2 ^ shift
    if value > 0 then value / divisor
    else -((-value + divisor - 1) / divisor)

/-- Embeds modules::residual_map (residual_map.hpp implementation), returning
the mapped delta; the throw sites for a zero dynamic range and a negative
theta become none. -/
def hpp_residual_map (sample : ℤ) (scaled_prediction : ℤ) (bits : ℕ) : Option ℤ :=
  if bits = 0 then none
  else
    let prediction := arithmetic_shift_right scaled_prediction 1
    let lower_bound : ℤ := -(2 ^ (bits - 1))
    let upper_bound : ℤ := 2 ^ (bits - 1) - 1
    let theta := min (prediction - lower_bound) (upper_bound - prediction)
    if theta < 0 then none
    else
      let residual := sample - prediction
      let magnitude : ℤ := residual.natAbs
      let spo := ¬(scaled_prediction % 2 = 0)
      some (if magnitude > theta then magnitude + theta
        else if (¬spo ∧ residual ≥ 0) ∨ (spo ∧ residual ≤ 0) then magnitude * 2
        else magnitude * 2 - 1)

/-- Embeds modules::residual_unmap (residual_unmap.hpp): the sign of an
out-of-band magnitude is chosen by comparing theta with the distance of the
prediction to the lower bound, with no re-sign step; the throw sites become
none. -/
def hpp_residual_unmap (delta : ℤ) (theta : ℤ) (scaled_prediction : ℤ) (bits : ℕ) :
    Option ℤ :=
  if bits = 0 then none
  else if theta < 0 then none
  else
    let prediction := arithmetic_shift_right scaled_prediction 1
    let two_theta := theta * 2
    if delta > two_theta then
      let magnitude := delta - theta
      let lower_distance := prediction + 2 ^ (bits - 1)
      some (if theta = lower_distance then magnitude else -magnitude)
    else
      let delta_even := delta % 2 = 0
      let magnitude : ℤ := if delta_even then delta / 2 else (delta + 1) / 2
      if magnitude = 0 then some 0
      else
        let spo := ¬(scaled_prediction % 2 = 0)
        some (if (delta_even ∧ ¬spo) ∨ (¬delta_even ∧ spo) then magnitude else -magnitude)

end HppModules

/-- One bit-writer emission of the low count bits of a value, MSB first
(BitWriter::write_bits in part_005). -/
def natBits (value : ℕ) : ℕ → List Bool
  | 0 => []
  | n + 1 => value.testBit n :: natBits value n

/-- Value of up to eight bits, MSB first (BitWriter byte assembly: the
accumulator shifts left one position per bit). -/
def byteVal (bits : List Bool) : ℕ :=
  bits.foldl (fun acc b => 2 * acc + (if b then 1 else 0)) 0

/-- Packs a bit sequence into bytes, MSB first, zero-padding the final
incomplete byte (BitWriter::flush_byte and BitWriter::finish in part_005). -/
def byteify : List Bool → List ℕ
  | [] => []
  | b0 :: b1 :: b2 :: b3 :: b4 :: b5 :: b6 :: b7 :: rest =>
      byteVal [b0, b1, b2, b3, b4, b5, b6, b7] :: byteify rest
  | leftover => [byteVal (leftover ++ List.replicate (8 - leftover.length) false)]

/-- The bit sequence stored in a byte sequence, MSB first within each byte
(BitReader bit extraction; only the low eight bits of a stored value are ever
inspected). -/
def unpackBits (bytes : List ℕ) : List Bool := bytes.flatMap (fun b => natBits b 8)

/-- Bit reader state (BitReader in part_005): the remaining bit stream of the
payload bytes and the remaining payload-bit budget. -/
structure Reader where
  bits : List Bool
  budget : ℕ
  deriving DecidableEq

/-- Embeds BitReader::read_bit: fails when the payload-bit budget is exhausted
or no byte remains. -/
def readBit (r : Reader) : Option (Bool × Reader) :=
  if r.budget = 0 then none
  else
    match r.bits with
    | [] => none
    | b :: rest => some (b, ⟨rest, r.budget - 1⟩)

/-- Loop of BitReader::read_bits: assemble count bits MSB first into acc. -/
def readBitsAux (acc : ℕ) : ℕ → Reader → Option (ℕ × Reader)
  | 0, r => some (acc, r)
  | n + 1, r =>
      match readBit r with
      | none => none
      | some (b, r1) => readBitsAux (2 * acc + (if b then 1 else 0)) n r1

/-- Embeds BitReader::read_bits (part_005). -/
def readBits (count : ℕ) (r : Reader) : Option (ℕ × Reader) := readBitsAux 0 count r

/-- Embeds mask_bits (part_005). -/
def mask_bits (bits : ℕ) : ℕ :=
  if bits = 0 then 0
  else if bits ≥ 32 then 2 ^ 32 - 1
  else 2 ^ bits - 1

/-- Embeds compute_rhs_part (part_005): uint32 product truncation, then an
unsigned shift by 7. -/
def compute_rhs_part (counter : ℕ) : ℕ := 49 * counter % 2 ^ 32 / 2 ^ 7

/-- Embeds compute_initial_accumulator (part_005): the uint64 intermediate is
exact for the validated parameter ranges; the final cast truncates to 32 bits. -/
def compute_initial_accumulator (p : Params) : ℕ :=
  (3 * 2 ^ (p.coder.kz_prime.toNat + 6) - 49) * 2 ^ p.coder.initial_count_exponent.toNat
    / 2 ^ 7 % 2 ^ 32

/-- The max_counter_ member of the coder classes (part_005). -/
def max_counter (p : Params) : ℕ :=
  if p.coder.counter_size ≥ 32 then 2 ^ 32 - 1 else 2 ^ p.coder.counter_size.toNat - 1

/-- Shared mutable state of SampleAdaptiveGolombEncoder and
SampleAdaptiveGolombDecoder (part_005): frame counter plus per-band
accumulators. -/
structure GolombState where
  counter : ℕ := 0
  accumulators : List ℕ := []
  deriving DecidableEq

/-- Embeds select_k, the member function duplicated verbatim in the encoder and
decoder classes (part_005): keep the largest i in [1, depth-2] with
counter * 2^i ≤ rhs, after the three early-out guards. -/
def select_k (counter rhs : ℕ) (depth : ℤ) : ℕ :=
  if depth ≤ 1 then 0
  else if counter = 0 then (if depth - 1 > 0 then depth - 2 else 0).toNat
  else if 2 * counter > rhs then 0
  else
    let max_k := (max 0 (depth - 2)).toNat
    (List.range' 1 max_k).foldl
      (fun selected i => if counter * 2 ^ i ≤ rhs then i else selected) 0

/-- The rhs quantity of encode_sample and decode_sample (uint32 addition of
accumulator and counter part). -/
def golomb_rhs (st : GolombState) (z : ℕ) : ℕ :=
  (st.accumulators.getD z 0 + compute_rhs_part st.counter) % 2 ^ 32

/-- Bits emitted for one sample by SampleAdaptiveGolombEncoder::encode_sample
and emit_code (part_005). -/
def encode_sample_bits (p : Params) (st : GolombState) (ctrl : CtrlSignals) (z : ℕ)
    (delta : ℕ) : List Bool :=
  let k := select_k st.counter (golomb_rhs st z) p.D
  if ctrl.first_line ∧ ctrl.first_in_line then
    natBits (delta &&& mask_bits p.D.toNat) p.D.toNat
  else
    let value := delta &&& mask_bits p.D.toNat
    let u := if k ≥ 32 then 0 else value >>> k
    if u ≥ p.coder.u_max.toNat then
      List.replicate p.coder.u_max.toNat false ++ natBits value p.D.toNat
    else
      List.replicate u false ++ [true] ++
        (if k > 0 then natBits (value &&& mask_bits k) k else [])

/-- Embeds update_accumulator and update_counter, duplicated verbatim in the
encoder and decoder classes (part_005), as one state transformer applied after
coding the sample. -/
def golomb_update (p : Params) (st : GolombState) (ctrl : CtrlSignals) (z : ℕ)
    (delta : ℕ) : GolombState :=
  let counter_pre := st.counter
  let first_sample := ctrl.first_line ∧ ctrl.first_in_line
  let acc := st.accumulators.getD z 0
  let acc1 :=
    if first_sample then compute_initial_accumulator p
    else
      let sum := acc + delta
      if counter_pre < max_counter p then min sum (2 ^ 32 - 1)
      else (sum + 1) / 2
  let counter1 :=
    if first_sample then 2 ^ p.coder.initial_count_exponent.toNat
    else if (z : ℤ) ≥ p.NZ - 1 then
      (if counter_pre < max_counter p then counter_pre + 1 else (counter_pre + 1) / 2)
    else counter_pre
  { counter := counter1, accumulators := st.accumulators.set z acc1 }

/-- Embeds read_bits_checked (decoder, part_005): a zero count reads nothing. -/
def read_bits_checked (count : ℕ) (r : Reader) : Option (ℕ × Reader) :=
  if count = 0 then some (0, r) else readBits count r

/-- Embeds read_unary_limited (decoder, part_005): count zero bits up to the
given limit, stopping early at a one bit. -/
def read_unary_limited : ℕ → Reader → Option (ℕ × Reader)
  | 0, r => some (0, r)
  | limit + 1, r =>
      match readBit r with
      | none => none
      | some (b, r1) =>
          if b then some (0, r1)
          else
            match read_unary_limited limit r1 with
            | none => none
            | some (z, r2) => some (z + 1, r2)

/-- Embeds SampleAdaptiveGolombDecoder::decode_sample (part_005) up to the
state update, which golomb_update performs exactly as in the encoder. -/
def decode_sample (p : Params) (st : GolombState) (ctrl : CtrlSignals) (z : ℕ)
    (r : Reader) : Option (ℕ × Reader) :=
  let k := select_k st.counter (golomb_rhs st z) p.D
  if ctrl.first_line ∧ ctrl.first_in_line then
    read_bits_checked p.D.toNat r
  else
    match read_unary_limited p.coder.u_max.toNat r with
    | none => none
    | some (u, r1) =>
        if u ≥ p.coder.u_max.toNat then
          read_bits_checked p.D.toNat r1
        else
          match read_bits_checked k r1 with
          | none => none
          | some (remainder, r2) => some ((u <<< k) ||| remainder, r2)

/-- Per-band sliding window and weight vector (BandState in part_005). -/
structure BandState where
  prev_row : List ℤ := []
  curr_row : List ℤ := []
  weights : List ℤ := []
  deriving DecidableEq

/-- Embeds gather_samples (part_005). -/
def gather_samples (band : BandState) (nx : ℕ) (x : ℕ) (y : ℕ) : Modules.LocalSamples :=
  let north := if y > 0 then band.prev_row.getD x 0 else 0
  { cur := band.curr_row.getD x 0
    west := if x > 0 then band.curr_row.getD (x - 1) 0 else 0
    north := north
    north_west := if x > 0 ∧ y > 0 then band.prev_row.getD (x - 1) 0 else 0
    north_east := if y > 0 ∧ x + 1 < nx then band.prev_row.getD (x + 1) 0 else north }

/-- Embeds swap_rows (part_005): promote the current row and clear it in
place (std::fill keeps the length). -/
def swap_rows (band : BandState) : BandState :=
  { band with prev_row := band.curr_row, curr_row := band.curr_row.map (fun _ => 0) }

/-- Embeds create_band_states (part_005). -/
def create_band_states (p : Params) : List BandState :=
  let width := p.NX.toNat
  let components := (p.P + (if p.reduced then 0 else 3)).toNat
  List.replicate p.NZ.toNat
    { prev_row := List.replicate width 0
      curr_row := List.replicate width 0
      weights := Modules.init_weights p.reduced p.omega components }

/-- The control configuration built by encode_payload and decode_payload
(part_005); validation guarantees the dimensions are positive. -/
def control_config (p : Params) : ControlConfig :=
  { nx := p.NX.toNat, ny := p.NY.toNat, nz := p.NZ.toNat,
    v_min := p.v_min, v_max := p.v_max, tinc_log := p.tinc_log.toNat }

/-- The per-sample prediction pipeline shared verbatim by the encode_payload
and decode_payload loops (part_005): neighborhood, local differences (three
directional taps: validation pins P = 0), dot product with the band weights,
and the predictor with prev_band_sample = -1.  cur is the centered current
sample on the encode side and zero on the decode side; it only feeds the
unused central difference.  Returns the predictor result and the diffs. -/
def step_prediction (p : Params) (ctrl : CtrlSignals) (band : BandState)
    (x y : ℕ) (cur : ℤ) : Modules.PredictorResult × List ℤ :=
  let neighborhood := { gather_samples band p.NX.toNat x y with cur := cur }
  let locald := Modules.local_diff ctrl neighborhood false
  let diffs := [locald.d_n, locald.d_w, locald.d_nw]
  let dot := Modules.dot_product diffs band.weights
  let pred := Modules.predictor
    { ctrl := ctrl, depth := p.D, omega := p.omega, rbits := p.register_bits,
      prev_band_sample := -1, numerator := dot, local_sum := locald.local_sum }
  (pred, diffs)

/-- Whole-encoder state threaded through the sample loop of encode_payload. -/
structure EncState where
  cursor : CtrlCursor
  bands : List BandState
  coder : GolombState
  bits : List Bool
  deriving DecidableEq

/-- Initial encoder state (construction at the top of encode_payload). -/
def enc_init (p : Params) : EncState :=
  { cursor := {}, bands := create_band_states p,
    coder := { counter := 0, accumulators := List.replicate p.NZ.toNat 0 }, bits := [] }

/-- One iteration of the encode_payload sample loop (part_005). -/
def encodeStep (p : Params) (input : List ℕ) (s : ℕ) (st : EncState) : EncState :=
  let stepRes := control_step (control_config p) st.cursor
  let ctrl := stepRes.1.ctrl
  let z := stepRes.1.z
  let pixel := s / p.NZ.toNat
  let x := pixel % p.NX.toNat
  let y := pixel / p.NX.toNat
  let band := st.bands.getD z {}
  let band_stride := p.NX.toNat * p.NY.toNat
  let index := z * band_stride + pixel
  let offset : ℤ := 2 ^ (p.D.toNat - 1)
  let sample_centered : ℤ := (input.getD index 0 : ℤ) - offset
  let pd := step_prediction p ctrl band x y sample_centered
  let delta := (Modules.residual_map sample_centered pd.1.scaled_pred p.D.toNat).toNat
  let chunk := encode_sample_bits p st.coder ctrl z delta
  let coder1 := golomb_update p st.coder ctrl z delta
  let weights1 := Modules.weight_update band.weights
    { ctrl := ctrl, depth := p.D, omega := p.omega, v_min := p.v_min, v_max := p.v_max,
      scaled_pred := pd.1.scaled_pred, sample := sample_centered, diffs := pd.2 } p.reduced
  let band1 :=
    { band with weights := weights1, curr_row := band.curr_row.set x sample_centered }
  let band2 := if x + 1 = p.NX.toNat then swap_rows band1 else band1
  { cursor := stepRes.2, bands := st.bands.set z band2, coder := coder1,
    bits := st.bits ++ chunk }

/-- Encoder state after n samples. -/
def encodeSteps (p : Params) (input : List ℕ) : ℕ → EncState
  | 0 => enc_init p
  | n + 1 => encodeStep p input n (encodeSteps p input n)

/-- Embeds encode_payload (part_005): the payload bit sequence before byte
padding; its length is payload_bits. -/
def encode_payload_bits (p : Params) (input : List ℕ) : List Bool :=
  (encodeSteps p input (p.NX.toNat * p.NY.toNat * p.NZ.toNat)).bits

/-- The controller output consumed at one codec step (both loops read it the
same way). -/
def step_ctrl (p : Params) (cursor : CtrlCursor) : CtrlOutput :=
  (control_step (control_config p) cursor).1

/-- The mapped residual coded by the encoder at step s: the value
mapped.delta handed to encode_sample in the encode_payload loop (part_005). -/
def enc_delta (p : Params) (input : List ℕ) (s : ℕ) (st : EncState) : ℕ :=
  let out := step_ctrl p st.cursor
  let pixel := s / p.NZ.toNat
  let x := pixel % p.NX.toNat
  let y := pixel / p.NX.toNat
  let band := st.bands.getD out.z {}
  let index := out.z * (p.NX.toNat * p.NY.toNat) + pixel
  let offset : ℤ := 2 ^ (p.D.toNat - 1)
  let sample_centered : ℤ := (input.getD index 0 : ℤ) - offset
  (Modules.residual_map sample_centered
    (step_prediction p out.ctrl band x y sample_centered).1.scaled_pred p.D.toNat).toNat

/-- The bit chunk appended by the encoder at step s. -/
def enc_chunk (p : Params) (input : List ℕ) (s : ℕ) (st : EncState) : List Bool :=
  encode_sample_bits p st.coder (step_ctrl p st.cursor).ctrl (step_ctrl p st.cursor).z
    (enc_delta p input s st)

/-- Little-endian bytes of a 16-bit value. -/
def le16 (v : ℕ) : List ℕ := [v % 2 ^ 8, v / 2 ^ 8 % 2 ^ 8]

/-- Little-endian bytes of a 32-bit value. -/
def le32 (v : ℕ) : List ℕ :=
  [v % 2 ^ 8, v / 2 ^ 8 % 2 ^ 8, v / 2 ^ 16 % 2 ^ 8, v / 2 ^ 24 % 2 ^ 8]

/-- uint16 store of a C++ int field: two-complement truncation to 16 bits. -/
def u16_of_int (v : ℤ) : ℕ := (v % 2 ^ 16).toNat

/-- Bytes of HeaderLayoutV3 as laid out by make_header and copied into the
container (part_005): packed little-endian fields, 46 bytes in total. -/
def headerV3Bytes (p : Params) (payload_bits : ℕ) : List ℕ :=
  [67, 49, 50, 51] ++ le16 3 ++
  le16 (u16_of_int p.NX) ++ le16 (u16_of_int p.NY) ++ le16 (u16_of_int p.NZ) ++
  le16 (u16_of_int p.D) ++ le16 (u16_of_int p.P) ++ le16 p.local_sum.toVal ++
  le16 ((if p.reduced then 1 else 0) + (if p.column_oriented then 2 else 0)) ++
  le16 (u16_of_int p.v_min) ++ le16 (u16_of_int p.v_max) ++ le16 (u16_of_int p.omega) ++
  le16 (u16_of_int p.register_bits) ++ le16 (u16_of_int p.tinc_log) ++
  le16 (u16_of_int p.coder.u_max) ++ le16 (u16_of_int p.coder.counter_size) ++
  le16 (u16_of_int p.coder.initial_count_exponent) ++ le16 (u16_of_int p.coder.kz_prime) ++
  le32 (payload_bits % 2 ^ 32) ++ le32 0

/-- Embeds ccsds123::encode (span overload, part_005): validate, check the
input size, run the payload loop, then emit the header and the padded payload
bytes. -/
def encode (input : List ℕ) (p : Params) : Except Err (List ℕ) :=
  if ¬validateParams p then .error .invalidParams
  else if input.length ≠ p.NX.toNat * p.NY.toNat * p.NZ.toNat then .error .inputSizeMismatch
  else
    let bits := encode_payload_bits p input
    .ok (headerV3Bytes p bits.length ++ byteify bits)

/-- Read a little-endian u16 at a byte offset of the container. -/
def readU16 (bytes : List ℕ) (off : ℕ) : ℕ :=
  bytes.getD off 0 + 2 ^ 8 * bytes.getD (off + 1) 0

/-- Read a little-endian u32 at a byte offset of the container. -/
def readU32 (bytes : List ℕ) (off : ℕ) : ℕ :=
  bytes.getD off 0 + 2 ^ 8 * bytes.getD (off + 1) 0 +
    2 ^ 16 * bytes.getD (off + 2) 0 + 2 ^ 24 * bytes.getD (off + 3) 0

/-- Read an i16 field: two-complement reinterpretation of the u16 store. -/
def readI16 (bytes : List ℕ) (off : ℕ) : ℤ :=
  let v := readU16 bytes off
  if v ≥ 2 ^ 15 then (v : ℤ) - 2 ^ 16 else (v : ℤ)

/-- Parsed header information (HeaderInfo in part_005). -/
structure HeaderInfo where
  params : Params
  payload_bits : ℕ
  version : ℕ
  deriving DecidableEq

/-- Embeds parse_header (part_005), v2 defaults included. -/
def parse_header (bytes : List ℕ) : Except Err HeaderInfo :=
  if bytes.length < 30 then .error .containerTooSmall
  else if ¬(bytes.getD 0 0 = 67 ∧ bytes.getD 1 0 = 49 ∧ bytes.getD 2 0 = 50 ∧
      bytes.getD 3 0 = 51) then .error .invalidContainer
  else if readU16 bytes 4 = 2 then
    .ok { params := { NX := readU16 bytes 6, NY := readU16 bytes 8, NZ := readU16 bytes 10,
                      D := readU16 bytes 12, P := readU16 bytes 14,
                      local_sum := if readU16 bytes 16 ≠ 0 then .NeighborNarrow
                        else .NeighborWide,
                      v_min := -6, v_max := 9, omega := 19, register_bits := 64,
                      tinc_log := 4,
                      coder := { u_max := 9, counter_size := 8, initial_count_exponent := 6,
                                 kz_prime := 8 } },
          payload_bits := readU32 bytes 18, version := 2 }
  else if readU16 bytes 4 ≠ 3 then .error .invalidContainer
  else if bytes.length < 46 then .error .containerTooSmall
  else
    .ok { params := { NX := readU16 bytes 6, NY := readU16 bytes 8, NZ := readU16 bytes 10,
                      D := readU16 bytes 12, P := readU16 bytes 14,
                      local_sum := LocalSumMode.ofVal (readU16 bytes 16),
                      reduced := readU16 bytes 18 % 2 = 1,
                      column_oriented := readU16 bytes 18 / 2 % 2 = 1,
                      v_min := readI16 bytes 20, v_max := readI16 bytes 22,
                      omega := readI16 bytes 24, register_bits := readI16 bytes 26,
                      tinc_log := readI16 bytes 28,
                      coder := { u_max := readU16 bytes 30, counter_size := readU16 bytes 32,
                                 initial_count_exponent := readU16 bytes 34,
                                 kz_prime := readU16 bytes 36 } },
          payload_bits := readU32 bytes 38, version := 3 }

/-- Whole-decoder state threaded through the sample loop of decode_payload. -/
structure DecState where
  cursor : CtrlCursor
  bands : List BandState
  coder : GolombState
  reader : Reader
  output : List ℕ
  deriving DecidableEq

/-- Initial decoder state (construction at the top of decode_payload, output
vector sized by the ImageU16 decode overload). -/
def dec_init (p : Params) (payload_bytes : List ℕ) (payload_bits : ℕ) (osize : ℕ) :
    DecState :=
  { cursor := {}, bands := create_band_states p,
    coder := { counter := 0, accumulators := List.replicate p.NZ.toNat 0 },
    reader := ⟨unpackBits payload_bytes, payload_bits⟩,
    output := List.replicate osize 0 }

/-- One iteration of the decode_payload sample loop (part_005). -/
def decodeStep (p : Params) (s : ℕ) (st : DecState) : Option DecState :=
  let stepRes := control_step (control_config p) st.cursor
  let ctrl := stepRes.1.ctrl
  let z := stepRes.1.z
  let pixel := s / p.NZ.toNat
  let x := pixel % p.NX.toNat
  let y := pixel / p.NX.toNat
  let band := st.bands.getD z {}
  let band_stride := p.NX.toNat * p.NY.toNat
  let index := z * band_stride + pixel
  let offset : ℤ := 2 ^ (p.D.toNat - 1)
  let pd := step_prediction p ctrl band x y 0
  match decode_sample p st.coder ctrl z st.reader with
  | none => none
  | some (delta, r1) =>
      let residual := Modules.residual_unmap (delta : ℤ) pd.1.scaled_pred p.D.toNat
      let sample_centered := pd.1.predicted + residual
      let sample := Modules.clip (sample_centered + offset) 0 (2 ^ p.D.toNat - 1)
      let coder1 := golomb_update p st.coder ctrl z delta
      let weights1 := Modules.weight_update band.weights
        { ctrl := ctrl, depth := p.D, omega := p.omega, v_min := p.v_min, v_max := p.v_max,
          scaled_pred := pd.1.scaled_pred, sample := sample_centered, diffs := pd.2 }
        p.reduced
      let band1 :=
        { band with weights := weights1, curr_row := band.curr_row.set x sample_centered }
      let band2 := if x + 1 = p.NX.toNat then swap_rows band1 else band1
      some { cursor := stepRes.2, bands := st.bands.set z band2, coder := coder1,
             reader := r1, output := st.output.set index sample.toNat }

/-- Decoder state after n samples, none on a truncated payload. -/
def decodeSteps (p : Params) : ℕ → DecState → Option DecState
  | 0, st => some st
  | n + 1, st =>
      match decodeSteps p n st with
      | none => none
      | some st1 => decodeStep p n st1

/-- Embeds ccsds123::decode (ImageU16 plus span overloads, part_005): size the
output from the caller parameters, parse and validate the header, check the
output size against the header dimensions, then run the payload loop. -/
def decode (inBytes : List ℕ) (p : Params) : Except Err (List ℕ) :=
  if inBytes.length < 30 then .error .containerTooSmall
  else
    match parse_header inBytes with
    | .error e => .error e
    | .ok info =>
        let effective : Params := { info.params with theta := p.theta }
        if ¬validateParams effective then .error .invalidParams
        else
          let expected := effective.NX.toNat * effective.NY.toNat * effective.NZ.toNat
          let osize := p.NX.toNat * p.NY.toNat * p.NZ.toNat
          if osize ≠ expected then .error .outputSizeMismatch
          else
            let headerSize := if info.version = 3 then 46 else 30
            let payload := inBytes.drop headerSize
            match decodeSteps effective expected
                (dec_init effective payload info.payload_bits osize) with
            | none => .error .truncatedPayload
            | some st => .ok st.output

end Ccsds123

namespace Ccsds123

/-- Decidable equality of codec results, used to evaluate the concrete
scenarios. -/
instance exceptDecEq {e a : Type} [DecidableEq e] [DecidableEq a] :
    DecidableEq (Except e a) := fun u v =>
  match u, v with
  | .ok x, .ok y =>
      if h : x = y then isTrue (by rw [h]) else isFalse (fun hc => h (Except.ok.inj hc))
  | .error x, .error y =>
      if h : x = y then isTrue (by rw [h]) else isFalse (fun hc => h (Except.error.inj hc))
  | .ok _, .error _ => isFalse (fun hc => Except.noConfusion hc)
  | .error _, .ok _ => isFalse (fun hc => Except.noConfusion hc)

/-- Parameters of concrete scenario 1 (one 8-bit sample), other fields at
their defaults. -/
def paramsSingle : Params := { NX := 1, NY := 1, NZ := 1, D := 8 }

/-- Otherwise-valid parameters with the column-oriented flag set. -/
def paramsColumn : Params := { NX := 1, NY := 1, NZ := 1, D := 8, column_oriented := true }

/-- Validation-accepted parameters whose v_max does not fit an i16 header
field: the header store truncates 32768 to -32768. -/
def paramsOverflow : Params :=
  { NX := 1, NY := 1, NZ := 1, D := 8, v_min := 0, v_max := 32768 }

end Ccsds123

namespace Ccsds123

open Modules

set_option maxHeartbeats 1000000 in
/-- Helper: the mapper round-trip, shared by the mapper claims and the codec
round-trip proof.  For any in-range centered sample and in-range scaled
prediction, unmapping the mapped residual recovers the residual. -/
theorem mapper_roundtrip (D : ℕ) (pi s : ℤ)
    (hD1 : 1 ≤ D)
    (hpilo : -(2 ^ D) ≤ pi) (hpihi : pi ≤ 2 ^ D - 1)
    (hslo : -(2 ^ (D - 1)) ≤ s) (hshi : s ≤ 2 ^ (D - 1) - 1) :
    residual_unmap (residual_map s pi D) pi D = s - asr pi 1 := by
  have hD : D - 1 + 1 = D := by omega
  have hhalf : (2 : ℤ) ^ D = 2 * 2 ^ (D - 1) := by rw [mul_comm, ← pow_succ, hD]
  have h1 : (0 : ℤ) < 2 ^ (D - 1) := by positivity
  rw [hhalf] at hpilo hpihi
  simp only [residual_map, residual_unmap, theta_from_pred, asr, is_even, pow_one]
  generalize hq : (2 : ℤ) ^ (D - 1) = half at *
  rcases Int.natAbs_eq (s - pi / 2) with habs | habs <;> split_ifs <;> omega

set_option maxHeartbeats 1000000 in
/-- Helper: the mapped residual is nonnegative. -/
theorem residual_map_nonneg (D : ℕ) (pi s : ℤ)
    (hD1 : 1 ≤ D)
    (hpilo : -(2 ^ D) ≤ pi) (hpihi : pi ≤ 2 ^ D - 1)
    (hslo : -(2 ^ (D - 1)) ≤ s) (hshi : s ≤ 2 ^ (D - 1) - 1) :
    0 ≤ residual_map s pi D := by
  have hD : D - 1 + 1 = D := by omega
  have hhalf : (2 : ℤ) ^ D = 2 * 2 ^ (D - 1) := by rw [mul_comm, ← pow_succ, hD]
  have h1 : (0 : ℤ) < 2 ^ (D - 1) := by positivity
  rw [hhalf] at hpilo hpihi
  simp only [residual_map, theta_from_pred, asr, is_even, pow_one]
  generalize hq : (2 : ℤ) ^ (D - 1) = half at *
  rcases Int.natAbs_eq (s - pi / 2) with habs | habs <;> split_ifs <;> omega

set_option maxHeartbeats 1000000 in
/-- Helper: the mapped residual stays below the dynamic range bound. -/
theorem residual_map_le (D : ℕ) (pi s : ℤ)
    (hD1 : 1 ≤ D)
    (hpilo : -(2 ^ D) ≤ pi) (hpihi : pi ≤ 2 ^ D - 1)
    (hslo : -(2 ^ (D - 1)) ≤ s) (hshi : s ≤ 2 ^ (D - 1) - 1) :
    residual_map s pi D ≤ 2 ^ D - 1 := by
  have hD : D - 1 + 1 = D := by omega
  have hhalf : (2 : ℤ) ^ D = 2 * 2 ^ (D - 1) := by rw [mul_comm, ← pow_succ, hD]
  have h1 : (0 : ℤ) < 2 ^ (D - 1) := by positivity
  rw [hhalf] at hpilo hpihi ⊢
  simp only [residual_map, theta_from_pred, asr, is_even, pow_one]
  generalize hq : (2 : ℤ) ^ (D - 1) = half at *
  rcases Int.natAbs_eq (s - pi / 2) with habs | habs <;> split_ifs <;> omega

/-- C2: for every bit depth D in [1,16], scaled prediction pi in
[-2^D, 2^D - 1] and centered sample s in [-2^(D-1), 2^(D-1) - 1] with
residual e = s - (pi >> 1), the inverse mapping of the decoder applied to the
mapped value of the encoder returns e. -/
theorem c2_mapper_bijection (D : ℕ) (pi s : ℤ)
    (hD1 : 1 ≤ D) (hD2 : D ≤ 16)
    (hpilo : -(2 ^ D) ≤ pi) (hpihi : pi ≤ 2 ^ D - 1)
    (hslo : -(2 ^ (D - 1)) ≤ s) (hshi : s ≤ 2 ^ (D - 1) - 1) :
    residual_unmap (residual_map s pi D) pi D = s - asr pi 1 :=
  mapper_roundtrip D pi s hD1 hpilo hpihi hslo hshi

/-- C2 witness at D = 8, pi = 5, s = -100. -/
theorem c2_mapper_bijection_witness :
    residual_unmap (residual_map (-100) 5 8) 5 8 = -100 - asr 5 1 :=
  c2_mapper_bijection 8 5 (-100) (by norm_num) (by norm_num) (by norm_num)
    (by norm_num) (by norm_num) (by norm_num)

end Ccsds123

namespace Ccsds123

open Modules

/-- Helper: the detail arithmetic shift by one equals floor division by two. -/
theorem hpp_asr_one (v : ℤ) : HppModules.arithmetic_shift_right v 1 = v / 2 := by
  simp only [HppModules.arithmetic_shift_right]
  norm_num
  split_ifs <;> omega

set_option maxHeartbeats 1600000 in
/-- C9: the two residual-unmap implementations agree.  For every D in [1,16],
scaled prediction pi in [-2^D, 2^D - 1] and in-range centered sample s, the
mapped delta of the header-only implementation equals that of modules.cpp, and
unmapping that delta through the header-only inverse (sign from the distance
to the lower bound, no re-sign step) equals the modules.cpp inverse (sign from
parity plus re-sign). -/
theorem c9_unmap_implementations_agree (D : ℕ) (pi s : ℤ)
    (hD1 : 1 ≤ D) (hD2 : D ≤ 16)
    (hpilo : -(2 ^ D) ≤ pi) (hpihi : pi ≤ 2 ^ D - 1)
    (hslo : -(2 ^ (D - 1)) ≤ s) (hshi : s ≤ 2 ^ (D - 1) - 1) :
    HppModules.hpp_residual_map s pi D = some (residual_map s pi D) ∧
    HppModules.hpp_residual_unmap (residual_map s pi D) (theta_from_pred (asr pi 1) D) pi D
      = some (residual_unmap (residual_map s pi D) pi D) := by
  have hD : D - 1 + 1 = D := by omega
  have hhalf : (2 : ℤ) ^ D = 2 * 2 ^ (D - 1) := by rw [mul_comm, ← pow_succ, hD]
  have h1 : (0 : ℤ) < 2 ^ (D - 1) := by positivity
  rw [hhalf] at hpilo hpihi
  have hD0 : ¬(D = 0) := by omega
  constructor
  · simp only [HppModules.hpp_residual_map, hpp_asr_one, residual_map, theta_from_pred, asr,
      is_even, pow_one, if_neg hD0]
    generalize hq : (2 : ℤ) ^ (D - 1) = half at *
    rcases Int.natAbs_eq (s - pi / 2) with habs | habs <;> split_ifs <;>
      first
        | (exfalso; omega)
        | (simp only [Option.some.injEq] <;> omega)
  · simp only [HppModules.hpp_residual_unmap, hpp_asr_one, residual_map, residual_unmap,
      theta_from_pred, asr, is_even, pow_one, if_neg hD0]
    generalize hq : (2 : ℤ) ^ (D - 1) = half at *
    rcases Int.natAbs_eq (s - pi / 2) with habs | habs <;> split_ifs <;>
      first
        | (exfalso; omega)
        | (simp only [Option.some.injEq] <;> omega)

/-- C9 witness at D = 8, pi = 5, s = -100. -/
theorem c9_unmap_implementations_agree_witness :
    HppModules.hpp_residual_map (-100) 5 8 = some (residual_map (-100) 5 8) ∧
    HppModules.hpp_residual_unmap (residual_map (-100) 5 8)
        (theta_from_pred (asr 5 1) 8) 5 8
      = some (residual_unmap (residual_map (-100) 5 8) 5 8) :=
  c9_unmap_implementations_agree 8 5 (-100) (by norm_num) (by norm_num) (by norm_num)
    (by norm_num) (by norm_num) (by norm_num)

/-- C3 counterexample: at the first cell with omega = 4 and a three-component
weight vector (P = 0, full mode), the reseed produces (0, 0, 0) and not the
cascade predicted by the claim, whose head would be floor(7*2^4/8) = 14. -/
theorem c3_counterexample :
    weight_update [5, 6, 7]
      { ctrl := { first_line := true, first_in_line := true }, depth := 8, omega := 4,
        scaled_pred := 0, sample := 0, diffs := [0, 0, 0] } false = [0, 0, 0] ∧
    (7 * 2 ^ 4 / 8 : ℤ) = 14 := by decide

/-- C3 amended: at the first cell of the cube the weight vector is reseeded by
init_weights; in full mode the 7*2^omega/8 cascade covers only the first
components - 3 prediction taps and the trailing three directional taps are
reseeded to zero, so with P = 0 all three directional weights become 0. -/
theorem c3_first_cell_reseed (w : List ℤ) (inp : Modules.WeightUpdateInputs)
    (hf : inp.ctrl.first_line = true) (hfi : inp.ctrl.first_in_line = true)
    (hw : w.length = 3) :
    weight_update w inp false = [0, 0, 0] := by
  have hne : w.isEmpty = false := by
    cases w with
    | nil => simp at hw
    | cons a t => rfl
  have hinit : init_weights false inp.omega 3 = [0, 0, 0] := by
    simp [init_weights, List.range_succ]
  simp [weight_update, hne, hf, hfi, hw, hinit]

/-- C3 witness: a concrete reseed at the first cell. -/
theorem c3_first_cell_reseed_witness :
    weight_update [1, 2, 3]
      { ctrl := { first_line := true, first_in_line := true }, omega := 19 } false
      = [0, 0, 0] :=
  c3_first_cell_reseed [1, 2, 3] _ rfl rfl rfl

end Ccsds123

namespace Ccsds123

/-- C4: encoding the single-sample image NX = NY = NZ = 1, D = 8,
image = [0x80] yields the v3 container header followed by exactly eight zero
payload bits (the low D bits of delta = 0 written verbatim, with no unary or
Rice code on the very first sample); the version field reads 3 and the
payload_bits field reads 8. -/
theorem c4_single_sample :
    encode_payload_bits paramsSingle [128] = List.replicate 8 false ∧
    encode [128] paramsSingle = Except.ok (headerV3Bytes paramsSingle 8 ++ [0]) ∧
    readU16 (headerV3Bytes paramsSingle 8 ++ [0]) 4 = 3 ∧
    readU32 (headerV3Bytes paramsSingle 8 ++ [0]) 38 = 8 := by decide

/-- C1 counterexample: paramsOverflow is accepted by parameter validation, yet
the round trip fails: v_max = 32768 is truncated to -32768 by the i16 header
field, so the decoder rejects its own header with InvalidParams instead of
returning the image. -/
theorem c1_counterexample :
    validateParams paramsOverflow = true ∧
    (encode [128] paramsOverflow).bind (fun c => decode c paramsOverflow) ≠
      Except.ok [128] := by decide

/-- C7 counterexample: the column-oriented flag is not checked by
validate_params: encode with paramsColumn (otherwise valid, with
column_oriented set) does not raise InvalidParams, against the final sentence
of the claim. -/
theorem c7_counterexample :
    validateParams paramsColumn = true ∧
    encode [0] paramsColumn ≠ Except.error Err.invalidParams := by decide

/-- C7 amended: encode raises InvalidParams exactly when one of the
validate_params conditions holds: dimensions non-positive, D outside (0,16],
P nonzero, the reduced flag set, a local-sum mode other than neighbor-narrow,
theta nonzero, omega outside (0,31], register size outside (0,64], v_min
exceeding v_max, u_max outside (0,32], counter size outside (0,16], initial
count exponent outside [0,16], or kz_prime outside [0,16].  The
column-oriented flag is not among the checks. -/
theorem c7_invalid_params_iff (input : List ℕ) (p : Params) :
    encode input p = Except.error Err.invalidParams ↔
      ((p.NX ≤ 0 ∨ p.NY ≤ 0 ∨ p.NZ ≤ 0) ∨ (p.D ≤ 0 ∨ p.D > 16) ∨ p.P ≠ 0 ∨
       p.reduced = true ∨ p.local_sum ≠ LocalSumMode.NeighborNarrow ∨ p.theta ≠ 0 ∨
       (p.omega ≤ 0 ∨ p.omega > 31) ∨ (p.register_bits ≤ 0 ∨ p.register_bits > 64) ∨
       p.v_min > p.v_max ∨ (p.coder.u_max ≤ 0 ∨ p.coder.u_max > 32) ∨
       (p.coder.counter_size ≤ 0 ∨ p.coder.counter_size > 16) ∨
       (p.coder.initial_count_exponent < 0 ∨ p.coder.initial_count_exponent > 16) ∨
       (p.coder.kz_prime < 0 ∨ p.coder.kz_prime > 16)) := by
  have hiff : validateParams p = true ↔
      ¬((p.NX ≤ 0 ∨ p.NY ≤ 0 ∨ p.NZ ≤ 0) ∨ (p.D ≤ 0 ∨ p.D > 16) ∨ p.P ≠ 0 ∨
       p.reduced = true ∨ p.local_sum ≠ LocalSumMode.NeighborNarrow ∨ p.theta ≠ 0 ∨
       (p.omega ≤ 0 ∨ p.omega > 31) ∨ (p.register_bits ≤ 0 ∨ p.register_bits > 64) ∨
       p.v_min > p.v_max ∨ (p.coder.u_max ≤ 0 ∨ p.coder.u_max > 32) ∨
       (p.coder.counter_size ≤ 0 ∨ p.coder.counter_size > 16) ∨
       (p.coder.initial_count_exponent < 0 ∨ p.coder.initial_count_exponent > 16) ∨
       (p.coder.kz_prime < 0 ∨ p.coder.kz_prime > 16)) := by
    simp only [validateParams, decide_eq_true_eq, not_or]
    constructor
    · rintro ⟨h1, h2, h3, h4, h5, h6, h7, h8, h9, h10, h11, h12, h13⟩
      exact ⟨h1, h2, not_not_intro h3, h4, not_not_intro h5, not_not_intro h6,
        h7, h8, h9, h10, h11, h12, h13⟩
    · rintro ⟨h1, h2, h3, h4, h5, h6, h7, h8, h9, h10, h11, h12, h13⟩
      exact ⟨h1, h2, not_not.mp h3, h4, not_not.mp h5, not_not.mp h6,
        h7, h8, h9, h10, h11, h12, h13⟩
  constructor
  · intro h
    by_contra hR
    have hv := hiff.mpr hR
    simp only [encode, hv, not_true] at h
    norm_num at h
    split at h <;> simp_all
  · intro hR
    have hv : validateParams p = false := by
      cases hb : validateParams p
      · rfl
      · exact absurd hR (hiff.mp hb)
    simp [encode, hv]

end Ccsds123

namespace Ccsds123

/-- Helper: division and remainder of a successor when the remainder is not at
its cap. -/
theorem succ_div_mod_of_lt {n m : ℕ} (hm : 0 < m) (h : n % m + 1 < m) :
    (n + 1) / m = n / m ∧ (n + 1) % m = n % m + 1 := by
  have hd := Nat.div_add_mod n m
  exact (Nat.div_mod_unique hm).mpr ⟨by omega, by omega⟩

/-- Helper: division and remainder of a successor when the remainder is at its
cap. -/
theorem succ_div_mod_of_eq {n m : ℕ} (hm : 0 < m) (h : n % m = m - 1) :
    (n + 1) / m = n / m + 1 ∧ (n + 1) % m = 0 := by
  have hd := Nat.div_add_mod n m
  have hx : m * (n / m + 1) = m * (n / m) + m := by ring
  exact (Nat.div_mod_unique hm).mpr ⟨by omega, by omega⟩

/-- Helper: closed form of the scan cursor after n steps: z cycles fastest,
then x, then y; t tracks the spatial pixel index. -/
theorem control_iter_char (cfg : ControlConfig) (hx : 0 < cfg.nx) (hy : 0 < cfg.ny)
    (hz : 0 < cfg.nz) (n : ℕ) :
    control_iter cfg n =
      { x := n / cfg.nz % cfg.nx, y := n / cfg.nz / cfg.nx % cfg.ny,
        z := n % cfg.nz, t := n / cfg.nz % (cfg.nx * cfg.ny) } := by
  have hL : 0 < cfg.nx * cfg.ny := Nat.mul_pos hx hy
  induction n with
  | zero =>
      show (CtrlCursor.mk 0 0 0 0) = _
      simp
  | succ n ih =>
      show (control_step cfg (control_iter cfg n)).2 = _
      rw [ih]
      have hm1 : n % cfg.nz < cfg.nz := Nat.mod_lt _ hz
      have hm2 : n / cfg.nz % cfg.nx < cfg.nx := Nat.mod_lt _ hx
      have hm3 : n / cfg.nz / cfg.nx % cfg.ny < cfg.ny := Nat.mod_lt _ hy
      simp only [control_step]
      split_ifs with h1 h2 h3
      · -- z wraps, x wraps, y wraps
        have hzr : n % cfg.nz = cfg.nz - 1 := by omega
        have hq := succ_div_mod_of_eq hz hzr
        have hx2 := succ_div_mod_of_eq hx h2
        have hy2 := succ_div_mod_of_eq hy h3
        simp only [CtrlCursor.mk.injEq]
        refine ⟨?_, ?_, ?_, ?_⟩
        · rw [hq.1]; exact hx2.2.symm
        · rw [hq.1, hx2.1]; exact hy2.2.symm
        · exact hq.2.symm
        · rw [hq.1]; exact (Nat.mod_add_mod _ _ _).symm ▸ rfl
      · -- z wraps, x wraps, y advances
        have hzr : n % cfg.nz = cfg.nz - 1 := by omega
        have hq := succ_div_mod_of_eq hz hzr
        have hx2 := succ_div_mod_of_eq hx h2
        have hy2 := @succ_div_mod_of_lt (n / cfg.nz / cfg.nx) cfg.ny hy (by omega)
        simp only [CtrlCursor.mk.injEq]
        refine ⟨?_, ?_, ?_, ?_⟩
        · rw [hq.1]; exact hx2.2.symm
        · rw [hq.1, hx2.1]; exact hy2.2.symm
        · exact hq.2.symm
        · rw [hq.1]; exact (Nat.mod_add_mod _ _ _).symm ▸ rfl
      · -- z wraps, x advances
        have hzr : n % cfg.nz = cfg.nz - 1 := by omega
        have hq := succ_div_mod_of_eq hz hzr
        have hx2 := @succ_div_mod_of_lt (n / cfg.nz) cfg.nx hx (by omega)
        simp only [CtrlCursor.mk.injEq]
        refine ⟨?_, ?_, ?_, ?_⟩
        · rw [hq.1]; exact hx2.2.symm
        · rw [hq.1, hx2.1]
        · exact hq.2.symm
        · rw [hq.1]; exact (Nat.mod_add_mod _ _ _).symm ▸ rfl
      · -- z advances
        have hlt := @succ_div_mod_of_lt n cfg.nz hz (by omega)
        simp only [CtrlCursor.mk.injEq]
        exact ⟨by rw [hlt.1], by rw [hlt.1], hlt.2.symm, by rw [hlt.1]⟩

/-- Helper: lower and upper bounds of the scale-exponent schedule. -/
theorem schedule_bounds (vmin vmax u q : ℤ) (hq : 0 < q) (hv : vmin ≤ vmax) :
    vmin ≤ (if u ≤ 0 then vmin else if u ≥ (vmax - vmin) * q then vmax
      else vmin + u / q) ∧
    (if u ≤ 0 then vmin else if u ≥ (vmax - vmin) * q then vmax else vmin + u / q)
      ≤ vmax := by
  split_ifs with ha hb
  · omega
  · omega
  · have h1 : 0 ≤ u / q := Int.ediv_nonneg (by omega) (le_of_lt hq)
    have h2 : u / q < vmax - vmin := (Int.ediv_lt_iff_lt_mul hq).mpr (by omega)
    omega

/-- Helper: the scale-exponent schedule is monotone in the spatial cursor. -/
theorem schedule_mono (vmin vmax u1 u2 q : ℤ) (hq : 0 < q) (hv : vmin ≤ vmax)
    (h12 : u1 ≤ u2) :
    (if u1 ≤ 0 then vmin else if u1 ≥ (vmax - vmin) * q then vmax else vmin + u1 / q) ≤
    (if u2 ≤ 0 then vmin else if u2 ≥ (vmax - vmin) * q then vmax else vmin + u2 / q) := by
  have d0 : u1 / q ≤ u2 / q := Int.ediv_le_ediv hq h12
  split_ifs
  all_goals
    first
      | omega
      | (have h3 : 0 ≤ u2 / q := Int.ediv_nonneg (by omega) (le_of_lt hq); omega)
      | (have h4 : u1 / q < vmax - vmin := (Int.ediv_lt_iff_lt_mul hq).mpr (by omega); omega)

end Ccsds123

namespace Ccsds123

set_option maxHeartbeats 1000000 in
/-- C5: for all positive dimensions and v_min ≤ v_max, the scan controller
visits, at step s of the NX*NY*NZ steps, the cell with z = s mod NZ (innermost),
x = (s div NZ) mod NX, y = s div NZ div NX — so every (x,y,z) is visited exactly
once, in BIP order — and emits scale_exponent equal to the claimed schedule of
the 0-indexed spatial cursor t = s div NZ; the emitted sequence is monotone
non-decreasing and stays inside [v_min, v_max]. -/
theorem c5_scan_controller (cfg : ControlConfig) (hx : 0 < cfg.nx) (hy : 0 < cfg.ny)
    (hz : 0 < cfg.nz) (hv : cfg.v_min ≤ cfg.v_max) :
    (∀ s, s < cfg.nx * cfg.ny * cfg.nz →
      (control_iter cfg s).z = s % cfg.nz ∧
      (control_iter cfg s).x = s / cfg.nz % cfg.nx ∧
      (control_iter cfg s).y = s / cfg.nz / cfg.nx ∧
      (control_output cfg s).z = s % cfg.nz) ∧
    (∀ x y z, x < cfg.nx → y < cfg.ny → z < cfg.nz →
      ∃! s, s < cfg.nx * cfg.ny * cfg.nz ∧ (control_iter cfg s).x = x ∧
        (control_iter cfg s).y = y ∧ (control_iter cfg s).z = z) ∧
    (∀ s, s < cfg.nx * cfg.ny * cfg.nz →
      (control_output cfg s).ctrl.scale_exponent =
        (if ((s / cfg.nz : ℕ) : ℤ) - (cfg.nx : ℤ) ≤ 0 then cfg.v_min
         else if ((s / cfg.nz : ℕ) : ℤ) - (cfg.nx : ℤ) ≥
             (cfg.v_max - cfg.v_min) * 2 ^ cfg.tinc_log then cfg.v_max
         else cfg.v_min + (((s / cfg.nz : ℕ) : ℤ) - (cfg.nx : ℤ)) / 2 ^ cfg.tinc_log)) ∧
    (∀ s1 s2, s1 ≤ s2 → s2 < cfg.nx * cfg.ny * cfg.nz →
      (control_output cfg s1).ctrl.scale_exponent ≤
        (control_output cfg s2).ctrl.scale_exponent) ∧
    (∀ s, s < cfg.nx * cfg.ny * cfg.nz →
      cfg.v_min ≤ (control_output cfg s).ctrl.scale_exponent ∧
      (control_output cfg s).ctrl.scale_exponent ≤ cfg.v_max) := by
  have hq : (0 : ℤ) < 2 ^ cfg.tinc_log := by positivity
  have hL : 0 < cfg.nx * cfg.ny := Nat.mul_pos hx hy
  have hpix : ∀ s, s < cfg.nx * cfg.ny * cfg.nz → s / cfg.nz < cfg.nx * cfg.ny := by
    intro s hs
    rw [Nat.div_lt_iff_lt_mul hz]
    exact hs
  have houtz : ∀ s, (control_output cfg s).z = (control_iter cfg s).z := fun s => rfl
  have hscale : ∀ s, s < cfg.nx * cfg.ny * cfg.nz →
      (control_output cfg s).ctrl.scale_exponent =
        (if ((s / cfg.nz : ℕ) : ℤ) - (cfg.nx : ℤ) ≤ 0 then cfg.v_min
         else if ((s / cfg.nz : ℕ) : ℤ) - (cfg.nx : ℤ) ≥
             (cfg.v_max - cfg.v_min) * 2 ^ cfg.tinc_log then cfg.v_max
         else cfg.v_min + (((s / cfg.nz : ℕ) : ℤ) - (cfg.nx : ℤ)) / 2 ^ cfg.tinc_log) := by
    intro s hs
    show (control_step cfg (control_iter cfg s)).1.ctrl.scale_exponent = _
    rw [control_iter_char cfg hx hy hz s]
    simp only [control_step]
    rw [Nat.mod_eq_of_lt (hpix s hs)]
  refine ⟨?_, ?_, ?_, ?_, ?_⟩
  · intro s hs
    have hyb : s / cfg.nz / cfg.nx < cfg.ny := by
      rw [Nat.div_lt_iff_lt_mul hx]
      calc s / cfg.nz < cfg.nx * cfg.ny := hpix s hs
        _ = cfg.ny * cfg.nx := Nat.mul_comm _ _
    rw [houtz s, control_iter_char cfg hx hy hz s]
    exact ⟨rfl, rfl, Nat.mod_eq_of_lt hyb, rfl⟩
  · intro x y z hxb hyb hzb
    have hA1 : (cfg.nx * y + x) % cfg.nx = x := by
      rw [Nat.mul_add_mod]
      exact Nat.mod_eq_of_lt hxb
    have hA2 : (cfg.nx * y + x) / cfg.nx = y := by
      rw [Nat.mul_add_div hx]
      rw [Nat.div_eq_of_lt hxb, Nat.add_zero]
    have hs1 : (cfg.nz * (cfg.nx * y + x) + z) % cfg.nz = z := by
      rw [Nat.mul_add_mod]
      exact Nat.mod_eq_of_lt hzb
    have hs2 : (cfg.nz * (cfg.nx * y + x) + z) / cfg.nz = cfg.nx * y + x := by
      rw [Nat.mul_add_div hz]
      rw [Nat.div_eq_of_lt hzb, Nat.add_zero]
    have hAlt : cfg.nx * y + x < cfg.nx * cfg.ny := by
      have := (Nat.div_lt_iff_lt_mul hx).mp (by rw [hA2]; exact hyb)
      calc cfg.nx * y + x < cfg.ny * cfg.nx := this
        _ = cfg.nx * cfg.ny := Nat.mul_comm _ _
    have hslt : cfg.nz * (cfg.nx * y + x) + z < cfg.nx * cfg.ny * cfg.nz := by
      rw [← Nat.div_lt_iff_lt_mul hz, hs2]
      exact hAlt
    refine ⟨cfg.nz * (cfg.nx * y + x) + z, ⟨hslt, ?_, ?_, ?_⟩, ?_⟩
    · rw [control_iter_char cfg hx hy hz, hs2, hA1]
    · rw [control_iter_char cfg hx hy hz, hs2, hA2]
      exact Nat.mod_eq_of_lt hyb
    · rw [control_iter_char cfg hx hy hz, hs1]
    · intro s1 hs1c
      obtain ⟨hslt1, hxe, hye, hze⟩ := hs1c
      rw [control_iter_char cfg hx hy hz] at hxe hye hze
      simp only at hxe hye hze
      have hybs : s1 / cfg.nz / cfg.nx < cfg.ny := by
        rw [Nat.div_lt_iff_lt_mul hx]
        calc s1 / cfg.nz < cfg.nx * cfg.ny := hpix s1 hslt1
          _ = cfg.ny * cfg.nx := Nat.mul_comm _ _
      rw [Nat.mod_eq_of_lt hybs] at hye
      have e1 : cfg.nx * (s1 / cfg.nz / cfg.nx) + s1 / cfg.nz % cfg.nx = s1 / cfg.nz :=
        Nat.div_add_mod _ _
      rw [hye, hxe] at e1
      have e0 : cfg.nz * (s1 / cfg.nz) + s1 % cfg.nz = s1 := Nat.div_add_mod _ _
      rw [← e1, hze] at e0
      exact e0.symm
  · exact hscale
  · intro s1 s2 h12 hs2
    have hs1 : s1 < cfg.nx * cfg.ny * cfg.nz := lt_of_le_of_lt h12 hs2
    rw [hscale s1 hs1, hscale s2 hs2]
    have hd : s1 / cfg.nz ≤ s2 / cfg.nz := Nat.div_le_div_right h12
    exact schedule_mono cfg.v_min cfg.v_max _ _ _ hq hv (by omega)
  · intro s hs
    rw [hscale s hs]
    exact schedule_bounds cfg.v_min cfg.v_max _ _ hq hv

/-- C5 witness: a concrete 2 x 2 x 3 configuration. -/
theorem c5_scan_controller_witness :
    (0 : ℕ) < 2 ∧
    ((control_iter { nx := 2, ny := 2, nz := 3, v_min := -1, v_max := 4, tinc_log := 1 }
        7).z = 7 % 3) := by
  have h := c5_scan_controller
    { nx := 2, ny := 2, nz := 3, v_min := -1, v_max := 4, tinc_log := 1 }
    (by norm_num) (by norm_num) (by norm_num) (by norm_num)
  exact ⟨by norm_num, (h.1 7 (by norm_num)).1⟩

end Ccsds123

namespace Ccsds123

open Modules

/-- Helper: an element produced by zipWith is an image of the function. -/
theorem mem_zipWith_imp {α β γ : Type} {f : α → β → γ} {l1 : List α} {l2 : List β} {c : γ}
    (h : c ∈ List.zipWith f l1 l2) : ∃ a b, a ∈ l1 ∧ b ∈ l2 ∧ c = f a b := by
  induction l1 generalizing l2 with
  | nil => simp at h
  | cons a t ih =>
      cases l2 with
      | nil => simp at h
      | cons b t2 =>
          rcases List.mem_cons.mp h with h | h
          · exact ⟨a, b, List.mem_cons_self _ _, List.mem_cons_self _ _, h⟩
          · obtain ⟨a1, b1, ha, hb, hc⟩ := ih h
            exact ⟨a1, b1, List.mem_cons_of_mem _ ha, List.mem_cons_of_mem _ hb, hc⟩

/-- Helper: clip lands inside a nonempty interval. -/
theorem clip_mem (v lo hi : ℤ) (h : lo ≤ hi) : lo ≤ clip v lo hi ∧ clip v lo hi ≤ hi := by
  unfold clip
  omega

/-- Helper: the default weight cascade stays between zero and its base. -/
theorem weight_seed_bounds (base : ℤ) (hb : 0 ≤ base) (i : ℕ) :
    0 ≤ weight_seed base i ∧ weight_seed base i ≤ base := by
  induction i with
  | zero => exact ⟨hb, le_refl _⟩
  | succ i ih =>
      have h8 : weight_seed base (i + 1) = weight_seed base i / 8 := rfl
      constructor
      · rw [h8]; exact Int.ediv_nonneg ih.1 (by norm_num)
      · rw [h8]; omega

/-- Helper: every reseeded weight is between zero and the cascade base. -/
theorem init_weights_mem (reduced : Bool) (omega : ℤ) (c : ℕ) (w : ℤ)
    (hw : w ∈ init_weights reduced omega c) :
    0 ≤ w ∧ w ≤ 7 * 2 ^ omega.toNat / 8 := by
  have hb : (0 : ℤ) ≤ 7 * 2 ^ omega.toNat / 8 :=
    Int.ediv_nonneg (by positivity) (by norm_num)
  unfold init_weights at hw
  simp only [List.mem_map, List.mem_range] at hw
  obtain ⟨i, hi, rfl⟩ := hw
  split_ifs <;>
    first
      | exact weight_seed_bounds _ (by positivity) i
      | exact ⟨le_refl 0, hb⟩

/-- Helper: the cascade base is below the clip limit. -/
theorem base_lt_limit (omega : ℤ) (h0 : 0 ≤ omega) :
    (7 * 2 ^ omega.toNat / 8 : ℤ) ≤ 2 ^ (omega + 2).toNat - 1 := by
  have h1 : (omega + 2).toNat = omega.toNat + 2 := by omega
  have h4 : (2 : ℤ) ^ ((omega + 2).toNat) = 4 * 2 ^ omega.toNat := by rw [h1]; ring
  have h3 : (0 : ℤ) < 2 ^ omega.toNat := by positivity
  have h5 : (7 * 2 ^ omega.toNat / 8 : ℤ) < 2 ^ omega.toNat := by
    rw [Int.ediv_lt_iff_lt_mul (show (0 : ℤ) < 8 by norm_num)]
    linarith
  rw [h4]
  linarith

/-- Helper: the weight updater keeps every component inside the clip range. -/
theorem weight_update_range (weights : List ℤ) (inp : Modules.WeightUpdateInputs)
    (reduced : Bool) (homega : 0 ≤ inp.omega)
    (hIn : ∀ w ∈ weights,
      -(2 ^ (inp.omega + 2).toNat) ≤ w ∧ w ≤ 2 ^ (inp.omega + 2).toNat - 1) :
    ∀ w ∈ weight_update weights inp reduced,
      -(2 ^ (inp.omega + 2).toNat) ≤ w ∧ w ≤ 2 ^ (inp.omega + 2).toNat - 1 := by
  intro w hw
  unfold weight_update at hw
  split_ifs at hw with h1 h2
  · exact hIn w hw
  · have hm := init_weights_mem reduced inp.omega weights.length w hw
    have hb := base_lt_limit inp.omega homega
    have hp : (0 : ℤ) < 2 ^ (inp.omega + 2).toNat := by positivity
    constructor <;> linarith [hm.1, hm.2]
  · rcases List.mem_append.mp hw with hw1 | hw2
    · obtain ⟨a, b, _, _, rfl⟩ := mem_zipWith_imp hw1
      exact clip_mem _ _ _
        (by have hp : (0 : ℤ) < 2 ^ (inp.omega + 2).toNat := by positivity
            omega)
    · exact hIn w (List.mem_of_mem_drop hw2)

end Ccsds123

namespace Ccsds123

open Modules

/-- Helper: getD outside the list yields the default. -/
theorem getD_oob {α : Type} (l : List α) (d : α) (n : ℕ) (h : l.length ≤ n) :
    l.getD n d = d := by
  rw [List.getD_eq_getElem?_getD, List.getElem?_eq_none h, Option.getD_none]

/-- Helper: weights of freshly created band states are inside the clip range. -/
theorem create_band_states_weights (p : Params) (homega : 0 ≤ p.omega) :
    ∀ b ∈ create_band_states p, ∀ w ∈ b.weights,
      -(2 ^ (p.omega + 2).toNat) ≤ w ∧ w ≤ 2 ^ (p.omega + 2).toNat - 1 := by
  intro b hb w hw
  have hbe := List.eq_of_mem_replicate hb
  subst hbe
  have hm := init_weights_mem p.reduced p.omega _ w hw
  have hlim := base_lt_limit p.omega homega
  have hp : (0 : ℤ) < 2 ^ (p.omega + 2).toNat := by positivity
  constructor <;> linarith [hm.1, hm.2]

/-- Helper: weight ranges are preserved by one encoder step. -/
theorem encodeStep_weights (p : Params) (input : List ℕ) (s : ℕ) (st : EncState)
    (homega : 0 ≤ p.omega)
    (hIn : ∀ b ∈ st.bands, ∀ w ∈ b.weights,
      -(2 ^ (p.omega + 2).toNat) ≤ w ∧ w ≤ 2 ^ (p.omega + 2).toNat - 1) :
    ∀ b ∈ (encodeStep p input s st).bands, ∀ w ∈ b.weights,
      -(2 ^ (p.omega + 2).toNat) ≤ w ∧ w ≤ 2 ^ (p.omega + 2).toNat - 1 := by
  intro b hb
  have hband : ∀ w1 ∈ (st.bands.getD ((control_step (control_config p) st.cursor).1.z)
      {}).weights,
      -(2 ^ (p.omega + 2).toNat) ≤ w1 ∧ w1 ≤ 2 ^ (p.omega + 2).toNat - 1 := by
    by_cases hlt : (control_step (control_config p) st.cursor).1.z < st.bands.length
    · rw [List.getD_eq_getElem _ _ hlt]
      exact hIn _ (List.getElem_mem hlt)
    · rw [getD_oob _ _ _ (by omega)]
      intro w1 hw1
      simp at hw1
  simp only [encodeStep] at hb
  rcases List.mem_or_eq_of_mem_set hb with hmem | rfl
  · exact hIn b hmem
  · intro w hw
    split_ifs at hw with hxe
    · simp only [swap_rows] at hw
      exact weight_update_range _ _ _ homega hband w hw
    · exact weight_update_range _ _ _ homega hband w hw

/-- Helper: weight ranges hold after any number of encoder steps. -/
theorem encodeSteps_weights (p : Params) (input : List ℕ) (n : ℕ) (homega : 0 ≤ p.omega) :
    ∀ b ∈ (encodeSteps p input n).bands, ∀ w ∈ b.weights,
      -(2 ^ (p.omega + 2).toNat) ≤ w ∧ w ≤ 2 ^ (p.omega + 2).toNat - 1 := by
  induction n with
  | zero => exact create_band_states_weights p homega
  | succ n ih => exact encodeStep_weights p input n _ homega ih

/-- Helper: weight ranges are preserved by one decoder step. -/
theorem decodeStep_weights (p : Params) (s : ℕ) (st st1 : DecState)
    (homega : 0 ≤ p.omega) (hstep : decodeStep p s st = some st1)
    (hIn : ∀ b ∈ st.bands, ∀ w ∈ b.weights,
      -(2 ^ (p.omega + 2).toNat) ≤ w ∧ w ≤ 2 ^ (p.omega + 2).toNat - 1) :
    ∀ b ∈ st1.bands, ∀ w ∈ b.weights,
      -(2 ^ (p.omega + 2).toNat) ≤ w ∧ w ≤ 2 ^ (p.omega + 2).toNat - 1 := by
  have hband : ∀ w1 ∈ (st.bands.getD ((control_step (control_config p) st.cursor).1.z)
      {}).weights,
      -(2 ^ (p.omega + 2).toNat) ≤ w1 ∧ w1 ≤ 2 ^ (p.omega + 2).toNat - 1 := by
    by_cases hlt : (control_step (control_config p) st.cursor).1.z < st.bands.length
    · rw [List.getD_eq_getElem _ _ hlt]
      exact hIn _ (List.getElem_mem hlt)
    · rw [getD_oob _ _ _ (by omega)]
      intro w1 hw1
      simp at hw1
  simp only [decodeStep] at hstep
  split at hstep
  · cases hstep
  · injection hstep with heq
    subst heq
    intro b hb
    rcases List.mem_or_eq_of_mem_set hb with hmem | rfl
    · exact hIn b hmem
    · intro w hw
      split_ifs at hw with hxe
      · simp only [swap_rows] at hw
        exact weight_update_range _ _ _ homega hband w hw
      · exact weight_update_range _ _ _ homega hband w hw

/-- Helper: weight ranges hold after any number of decoder steps. -/
theorem decodeSteps_weights (p : Params) (n : ℕ) (homega : 0 ≤ p.omega) (st0 : DecState)
    (h0 : ∀ b ∈ st0.bands, ∀ w ∈ b.weights,
      -(2 ^ (p.omega + 2).toNat) ≤ w ∧ w ≤ 2 ^ (p.omega + 2).toNat - 1)
    (st1 : DecState) (hrun : decodeSteps p n st0 = some st1) :
    ∀ b ∈ st1.bands, ∀ w ∈ b.weights,
      -(2 ^ (p.omega + 2).toNat) ≤ w ∧ w ≤ 2 ^ (p.omega + 2).toNat - 1 := by
  induction n generalizing st1 with
  | zero =>
      simp only [decodeSteps] at hrun
      injection hrun with heq
      subst heq
      exact h0
  | succ n ih =>
      simp only [decodeSteps] at hrun
      split at hrun
      · cases hrun
      · rename_i stm hm
        exact decodeStep_weights p n stm st1 homega hrun (ih stm hm)

/-- C6: for omega in (0,31], every component of every band weight vector lies
in [-2^(omega+2), 2^(omega+2) - 1] after initialization and after every
weight_update, at every step of the encode loop and of any decode run. -/
theorem c6_weight_clip_invariant (p : Params) (input : List ℕ) (n : ℕ)
    (homega1 : 0 < p.omega) (homega2 : p.omega ≤ 31) :
    (∀ b ∈ (encodeSteps p input n).bands, ∀ w ∈ b.weights,
      -(2 ^ (p.omega + 2).toNat) ≤ w ∧ w ≤ 2 ^ (p.omega + 2).toNat - 1) ∧
    (∀ payload_bytes payload_bits osize st1,
      decodeSteps p n (dec_init p payload_bytes payload_bits osize) = some st1 →
      ∀ b ∈ st1.bands, ∀ w ∈ b.weights,
        -(2 ^ (p.omega + 2).toNat) ≤ w ∧ w ≤ 2 ^ (p.omega + 2).toNat - 1) := by
  have homega : 0 ≤ p.omega := le_of_lt homega1
  refine ⟨encodeSteps_weights p input n homega, ?_⟩
  intro payload_bytes payload_bits osize st1 hrun
  exact decodeSteps_weights p n homega _ (create_band_states_weights p homega) st1 hrun

/-- C6 witness: the first weight of the single band after one encoder step of
the single-sample scenario is inside the clip range. -/
theorem c6_weight_clip_invariant_witness :
    -(2 ^ (paramsSingle.omega + 2).toNat) ≤
        (((encodeSteps paramsSingle [128] 1).bands.getD 0 { }).weights.getD 0 0 : ℤ) ∧
      (((encodeSteps paramsSingle [128] 1).bands.getD 0 { }).weights.getD 0 0 : ℤ) ≤
        2 ^ (paramsSingle.omega + 2).toNat - 1 :=
  (c6_weight_clip_invariant paramsSingle [128] 1 (by norm_num [paramsSingle])
      (by norm_num [paramsSingle])).1
    ((encodeSteps paramsSingle [128] 1).bands.getD 0 { }) (by decide)
    (((encodeSteps paramsSingle [128] 1).bands.getD 0 { }).weights.getD 0 0) (by decide)

end Ccsds123

namespace Ccsds123

open Modules

/-- Helper: a clipped value converted to a natural stays below any bound that
exceeds the clip ceiling. -/
theorem clip_toNat_lt (v hi : ℤ) (n : ℕ) (h0 : 0 ≤ hi) (hn : hi < (n : ℤ)) :
    (clip v 0 hi).toNat < n := by
  have hc := clip_mem v 0 hi h0
  omega

/-- Helper: output entries stay below the dynamic range after one decoder
step. -/
theorem decodeStep_output_range (p : Params) (s : ℕ) (st st1 : DecState)
    (hstep : decodeStep p s st = some st1)
    (hIn : ∀ v ∈ st.output, v < 2 ^ p.D.toNat) :
    ∀ v ∈ st1.output, v < 2 ^ p.D.toNat := by
  simp only [decodeStep] at hstep
  split at hstep
  · cases hstep
  · injection hstep with heq
    subst heq
    intro v hv
    rcases List.mem_or_eq_of_mem_set hv with hmem | rfl
    · exact hIn v hmem
    · have hpos : (0 : ℤ) < 2 ^ p.D.toNat := by positivity
      exact clip_toNat_lt _ _ _ (by linarith) (by push_cast; linarith)

/-- Helper: output entries stay below the dynamic range along a decode run. -/
theorem decodeSteps_output_range (p : Params) (n : ℕ) (st0 : DecState)
    (h0 : ∀ v ∈ st0.output, v < 2 ^ p.D.toNat)
    (st1 : DecState) (hrun : decodeSteps p n st0 = some st1) :
    ∀ v ∈ st1.output, v < 2 ^ p.D.toNat := by
  induction n generalizing st1 with
  | zero =>
      simp only [decodeSteps] at hrun
      injection hrun with heq
      subst heq
      exact h0
  | succ n ih =>
      simp only [decodeSteps] at hrun
      split at hrun
      · cases hrun
      · rename_i stm hm
        exact decodeStep_output_range p n stm st1 hrun (ih stm hm)

/-- Helper: a parsed header carries the bit depth stored at byte offset 12. -/
theorem parse_header_depth (bytes : List ℕ) (info : HeaderInfo)
    (h : parse_header bytes = Except.ok info) :
    info.params.D = (readU16 bytes 12 : ℤ) := by
  simp only [parse_header] at h
  split_ifs at h <;>
    first
      | exact Except.noConfusion h
      | (injection h with heq; subst heq; rfl)

/-- Helper: a decode run from a fresh decoder state keeps every output entry
below the dynamic range. -/
theorem decode_output_range_aux (p1 : Params) (n : ℕ) (payload : List ℕ)
    (pb osize : ℕ) (st1 : DecState)
    (hrun : decodeSteps p1 n (dec_init p1 payload pb osize) = some st1) :
    ∀ v ∈ st1.output, v < 2 ^ p1.D.toNat := by
  refine decodeSteps_output_range p1 n _ ?_ st1 hrun
  intro v hv
  have := List.eq_of_mem_replicate hv
  subst this
  positivity

set_option maxHeartbeats 1000000 in
/-- C10: whenever decode returns without error, every sample of the output
lies in [0, 2^D - 1] for the bit depth D stored in the header (byte offset 12
in both container versions): the reconstruction is clamped into range. -/
theorem c10_decode_output_in_range (bytes : List ℕ) (p : Params) (img : List ℕ)
    (h : decode bytes p = Except.ok img) :
    ∀ v ∈ img, v < 2 ^ readU16 bytes 12 := by
  simp only [decode] at h
  split_ifs at h with h1 <;> try cases h
  split at h
  · cases h
  · rename_i info hinfo
    split_ifs at h with h2 h3 <;> try cases h
    all_goals
      split at h <;>
        first
          | exact Except.noConfusion h
          | (rename_i st1 hrun
             injection h with himg
             have hout := decode_output_range_aux _ _ _ _ _ _ hrun
             intro v hv
             rw [← himg] at hv
             have hlt : v < 2 ^ (info.params.D).toNat := hout v hv
             rw [parse_header_depth bytes info hinfo] at hlt
             rwa [Int.toNat_natCast] at hlt)

/-- C10 witness: the single-sample container decodes to 128, below 2^8. -/
theorem c10_decode_output_in_range_witness :
    (128 : ℕ) < 2 ^ readU16 (headerV3Bytes paramsSingle 8 ++ [0]) 12 :=
  c10_decode_output_in_range (headerV3Bytes paramsSingle 8 ++ [0]) paramsSingle [128]
    (by decide) 128 (by decide)

end Ccsds123

namespace Ccsds123

/-- Helper: natBits emits exactly count bits. -/
theorem natBits_length (v n : ℕ) : (natBits v n).length = n := by
  induction n with
  | zero => rfl
  | succ n ih => simp [natBits, ih]

/-- Helper: reading count bits from a natBits chunk returns the low bits,
shifted into the accumulator. -/
theorem readBitsAux_spec (n : ℕ) : ∀ (acc v : ℕ) (rest : List Bool) (bud : ℕ), n ≤ bud →
    readBitsAux acc n ⟨natBits v n ++ rest, bud⟩ =
      some (acc * 2 ^ n + v % 2 ^ n, ⟨rest, bud - n⟩) := by
  induction n with
  | zero =>
      intro acc v rest bud h
      simp [readBitsAux, natBits, Nat.mod_one]
  | succ n ih =>
      intro acc v rest bud h
      have hb : ¬(bud = 0) := by omega
      simp only [natBits, List.cons_append, readBitsAux, readBit, hb, if_false]
      rw [ih _ v rest (bud - 1) (by omega)]
      have hm : v % 2 ^ (n + 1) = v % 2 ^ n + 2 ^ n * (v / 2 ^ n % 2) := Nat.mod_pow_succ
      have ht : v.testBit n = decide (v / 2 ^ n % 2 = 1) := Nat.testBit_to_div_mod
      have hm2 : v / 2 ^ n % 2 < 2 := Nat.mod_lt _ (by norm_num)
      rw [Option.some.injEq, Prod.mk.injEq, Reader.mk.injEq]
      refine ⟨?_, rfl, by omega⟩
      rw [hm]
      cases hbit : v.testBit n <;> rw [ht] at hbit <;> simp at hbit ⊢
      · have h0 : v / 2 ^ n % 2 = 0 := by omega
        rw [h0]
        ring
      · rw [hbit]
        ring

/-- Helper: reading count bits from a natBits chunk returns the value. -/
theorem readBits_spec (n v : ℕ) (rest : List Bool) (bud : ℕ) (hv : v < 2 ^ n)
    (h : n ≤ bud) :
    readBits n ⟨natBits v n ++ rest, bud⟩ = some (v, ⟨rest, bud - n⟩) := by
  rw [readBits, readBitsAux_spec n 0 v rest bud h]
  rw [Nat.mod_eq_of_lt hv]
  simp

/-- Helper: the limited unary reader consumes a zero run ended by a one bit. -/
theorem read_unary_hit (u : ℕ) : ∀ (limit : ℕ) (rest : List Bool) (bud : ℕ),
    u < limit → u + 1 ≤ bud →
    read_unary_limited limit ⟨List.replicate u false ++ true :: rest, bud⟩ =
      some (u, ⟨rest, bud - (u + 1)⟩) := by
  induction u with
  | zero =>
      intro limit rest bud hu hb
      obtain ⟨l, rfl⟩ : ∃ l, limit = l + 1 := ⟨limit - 1, by omega⟩
      have h0 : ¬(bud = 0) := by omega
      simp [read_unary_limited, readBit, h0]
  | succ u ih =>
      intro limit rest bud hu hb
      obtain ⟨l, rfl⟩ : ∃ l, limit = l + 1 := ⟨limit - 1, by omega⟩
      have h0 : ¬(bud = 0) := by omega
      simp only [List.replicate, List.cons_append, read_unary_limited, readBit, h0, if_false]
      rw [ih l rest (bud - 1) (by omega) (by omega)]
      first
        | (simp only [Option.some.injEq, Prod.mk.injEq, Reader.mk.injEq]
           simp
           omega)
        | (simp
           omega)
        | simp

/-- Helper: the limited unary reader stops after limit zero bits. -/
theorem read_unary_escape (limit : ℕ) : ∀ (rest : List Bool) (bud : ℕ),
    limit ≤ bud →
    read_unary_limited limit ⟨List.replicate limit false ++ rest, bud⟩ =
      some (limit, ⟨rest, bud - limit⟩) := by
  induction limit with
  | zero =>
      intro rest bud hb
      simp [read_unary_limited]
  | succ limit ih =>
      intro rest bud hb
      have h0 : ¬(bud = 0) := by omega
      simp only [List.replicate, List.cons_append, read_unary_limited, readBit, h0, if_false]
      rw [ih rest (bud - 1) (by omega)]
      first
        | (simp only [Option.some.injEq, Prod.mk.injEq, Reader.mk.injEq]
           simp
           omega)
        | (simp
           omega)
        | simp

/-- Helper: recombining quotient and remainder through shift and or. -/
theorem lor_shift (u r k : ℕ) (hr : r < 2 ^ k) : (u <<< k) ||| r = 2 ^ k * u + r := by
  apply Nat.eq_of_testBit_eq
  intro i
  rw [Nat.testBit_lor, Nat.testBit_shiftLeft, Nat.testBit_mul_pow_two_add u hr i]
  by_cases hik : i < k
  · have : ¬(i ≥ k) := by omega
    simp [this, hik]
  · have hik2 : i ≥ k := by omega
    have hrf : r.testBit i = false :=
      Nat.testBit_lt_two_pow (lt_of_lt_of_le hr (Nat.pow_le_pow_right (by norm_num) hik2))
    simp [hik, hik2, hrf]

/-- Helper: natBits inverts byteVal on one byte worth of bits. -/
theorem natBits_byteVal : ∀ b0 b1 b2 b3 b4 b5 b6 b7 : Bool,
    natBits (byteVal [b0, b1, b2, b3, b4, b5, b6, b7]) 8 =
      [b0, b1, b2, b3, b4, b5, b6, b7] := by decide

/-- Helper: unpacking the packed bytes returns the bit stream plus padding. -/
theorem unpack_byteify : ∀ bits : List Bool, ∃ pad, unpackBits (byteify bits) = bits ++ pad
  | [] => ⟨[], rfl⟩
  | b0 :: b1 :: b2 :: b3 :: b4 :: b5 :: b6 :: b7 :: rest => by
      obtain ⟨pad, ih⟩ := unpack_byteify rest
      refine ⟨pad, ?_⟩
      show natBits (byteVal [b0, b1, b2, b3, b4, b5, b6, b7]) 8 ++ unpackBits (byteify rest)
        = _
      rw [natBits_byteVal, ih]
      simp
  | [b0] => ⟨List.replicate 7 false, by
      show natBits (byteVal ([b0] ++ List.replicate 7 false)) 8 ++ [] = _
      rw [show ([b0] ++ List.replicate 7 false) =
        [b0, false, false, false, false, false, false, false] from rfl]
      rw [natBits_byteVal]
      simp⟩
  | [b0, b1] => ⟨List.replicate 6 false, by
      show natBits (byteVal ([b0, b1] ++ List.replicate 6 false)) 8 ++ [] = _
      rw [show ([b0, b1] ++ List.replicate 6 false) =
        [b0, b1, false, false, false, false, false, false] from rfl]
      rw [natBits_byteVal]
      simp⟩
  | [b0, b1, b2] => ⟨List.replicate 5 false, by
      show natBits (byteVal ([b0, b1, b2] ++ List.replicate 5 false)) 8 ++ [] = _
      rw [show ([b0, b1, b2] ++ List.replicate 5 false) =
        [b0, b1, b2, false, false, false, false, false] from rfl]
      rw [natBits_byteVal]
      simp⟩
  | [b0, b1, b2, b3] => ⟨List.replicate 4 false, by
      show natBits (byteVal ([b0, b1, b2, b3] ++ List.replicate 4 false)) 8 ++ [] = _
      rw [show ([b0, b1, b2, b3] ++ List.replicate 4 false) =
        [b0, b1, b2, b3, false, false, false, false] from rfl]
      rw [natBits_byteVal]
      simp⟩
  | [b0, b1, b2, b3, b4] => ⟨List.replicate 3 false, by
      show natBits (byteVal ([b0, b1, b2, b3, b4] ++ List.replicate 3 false)) 8 ++ [] = _
      rw [show ([b0, b1, b2, b3, b4] ++ List.replicate 3 false) =
        [b0, b1, b2, b3, b4, false, false, false] from rfl]
      rw [natBits_byteVal]
      simp⟩
  | [b0, b1, b2, b3, b4, b5] => ⟨List.replicate 2 false, by
      show natBits (byteVal ([b0, b1, b2, b3, b4, b5] ++ List.replicate 2 false)) 8 ++ [] = _
      rw [show ([b0, b1, b2, b3, b4, b5] ++ List.replicate 2 false) =
        [b0, b1, b2, b3, b4, b5, false, false] from rfl]
      rw [natBits_byteVal]
      simp⟩
  | [b0, b1, b2, b3, b4, b5, b6] => ⟨List.replicate 1 false, by
      show natBits (byteVal ([b0, b1, b2, b3, b4, b5, b6] ++ List.replicate 1 false)) 8 ++ []
        = _
      rw [show ([b0, b1, b2, b3, b4, b5, b6] ++ List.replicate 1 false) =
        [b0, b1, b2, b3, b4, b5, b6, false] from rfl]
      rw [natBits_byteVal]
      simp⟩

end Ccsds123

namespace Ccsds123

/-- Helper: a fold that either keeps the accumulator or picks a list element
stays below any common bound. -/
theorem foldl_choice_le (m : ℕ) (q : ℕ → Prop) [DecidablePred q] :
    ∀ (l : List ℕ) (a : ℕ), (∀ x ∈ l, x ≤ m) → a ≤ m →
      (l.foldl (fun sel i => if q i then i else sel) a) ≤ m := by
  intro l
  induction l with
  | nil => intro a _ ha; exact ha
  | cons x t ih =>
      intro a hl ha
      simp only [List.foldl]
      refine ih _ (fun y hy => hl y (List.mem_cons_of_mem _ hy)) ?_
      by_cases hq : q x
      · rw [if_pos hq]; exact hl x (List.mem_cons_self _ _)
      · rw [if_neg hq]; exact ha

/-- Helper: select_k never exceeds depth - 2. -/
theorem select_k_le (counter rhs : ℕ) (depth : ℤ) :
    select_k counter rhs depth ≤ (depth - 2).toNat := by
  unfold select_k
  split_ifs with h1 h2 h3 h4
  · exact Nat.zero_le _
  · omega
  · omega
  · exact Nat.zero_le _
  · refine foldl_choice_le _ (fun i => counter * 2 ^ i ≤ rhs) _ 0 ?_ (Nat.zero_le _)
    intro x hx
    have hxm : 1 ≤ x ∧ x < 1 + (max 0 (depth - 2)).toNat := by
      have := List.mem_range'_1.mp hx
      omega
    omega

/-- Helper: length bound of one coded sample chunk. -/
theorem encode_sample_bits_length (p : Params) (st : GolombState) (ctrl : CtrlSignals)
    (z delta : ℕ) (hD1 : 1 ≤ p.D) (hD2 : p.D ≤ 16) (hu1 : 1 ≤ p.coder.u_max) :
    (encode_sample_bits p st ctrl z delta).length ≤ p.coder.u_max.toNat + p.D.toNat := by
  have hk := select_k_le st.counter (golomb_rhs st z) p.D
  simp only [encode_sample_bits]
  by_cases hfs : ctrl.first_line = true ∧ ctrl.first_in_line = true
  · rw [if_pos hfs, natBits_length]; omega
  · rw [if_neg hfs]
    by_cases hesc :
        (if select_k st.counter (golomb_rhs st z) p.D ≥ 32 then 0
          else (delta &&& mask_bits p.D.toNat) >>> select_k st.counter (golomb_rhs st z) p.D) ≥
          p.coder.u_max.toNat
    · rw [if_pos hesc]
      simp only [List.length_append, List.length_replicate, natBits_length]
      omega
    · rw [if_neg hesc]
      by_cases hk0 : select_k st.counter (golomb_rhs st z) p.D > 0
      · rw [if_pos hk0]
        simp only [List.length_append, List.length_replicate, List.length_cons,
          List.length_nil, natBits_length]
        omega
      · rw [if_neg hk0]
        simp only [List.length_append, List.length_replicate, List.length_cons,
          List.length_nil]
        omega

/-- Helper: masking with a low-bit mask is reduction mod a power of two. -/
theorem and_mask (v n : ℕ) : v &&& (2 ^ n - 1) = v % 2 ^ n := by
  rw [Nat.and_pow_two_sub_one_eq_mod]

set_option maxHeartbeats 1000000 in
/-- Helper: the Golomb decoder inverts one encoder chunk, consuming exactly
its bits from the reader. -/
theorem golomb_decode_spec (p : Params) (st : GolombState) (ctrl : CtrlSignals) (z : ℕ)
    (delta : ℕ) (rest : List Bool) (bud : ℕ)
    (hD1 : 1 ≤ p.D) (hD2 : p.D ≤ 16) (hu1 : 1 ≤ p.coder.u_max)
    (hdelta : delta < 2 ^ p.D.toNat)
    (hbud : (encode_sample_bits p st ctrl z delta).length ≤ bud) :
    decode_sample p st ctrl z ⟨encode_sample_bits p st ctrl z delta ++ rest, bud⟩ =
      some (delta, ⟨rest, bud - (encode_sample_bits p st ctrl z delta).length⟩) := by
  have hk := select_k_le st.counter (golomb_rhs st z) p.D
  have hD0 : p.D.toNat ≠ 0 := by omega
  have hmaskD : mask_bits p.D.toNat = 2 ^ p.D.toNat - 1 := by
    unfold mask_bits
    rw [if_neg hD0, if_neg (by omega)]
  have hvalue : delta &&& mask_bits p.D.toNat = delta := by
    rw [hmaskD, and_mask, Nat.mod_eq_of_lt hdelta]
  have hk32 : ¬(select_k st.counter (golomb_rhs st z) p.D ≥ 32) := by omega
  by_cases hfs : ctrl.first_line = true ∧ ctrl.first_in_line = true
  · have hch : encode_sample_bits p st ctrl z delta = natBits delta p.D.toNat := by
      simp only [encode_sample_bits, hvalue]
      rw [if_pos hfs]
    rw [hch] at hbud ⊢
    rw [natBits_length] at hbud
    simp only [decode_sample]
    rw [if_pos hfs]
    unfold read_bits_checked
    rw [if_neg hD0, readBits_spec _ _ _ _ hdelta hbud, natBits_length]
  · by_cases hesc :
        delta >>> select_k st.counter (golomb_rhs st z) p.D ≥ p.coder.u_max.toNat
    · have hch : encode_sample_bits p st ctrl z delta =
          List.replicate p.coder.u_max.toNat false ++ natBits delta p.D.toNat := by
        simp only [encode_sample_bits, hvalue]
        rw [if_neg hfs, if_neg hk32, if_pos hesc]
      rw [hch] at hbud ⊢
      simp only [List.length_append, List.length_replicate, natBits_length] at hbud
      simp only [decode_sample]
      rw [if_neg hfs, List.append_assoc,
        read_unary_escape _ _ _ (by omega : p.coder.u_max.toNat ≤ bud)]
      simp only [ge_iff_le, le_refl, if_true]
      unfold read_bits_checked
      rw [if_neg hD0,
        readBits_spec _ _ _ _ hdelta (by omega : p.D.toNat ≤ bud - p.coder.u_max.toNat)]
      simp only [List.length_append, List.length_replicate, natBits_length,
        Option.some.injEq, Prod.mk.injEq, Reader.mk.injEq]
      refine ⟨by trivial, by trivial, by omega⟩
    · by_cases hk0 : select_k st.counter (golomb_rhs st z) p.D > 0
      · have hknz : select_k st.counter (golomb_rhs st z) p.D ≠ 0 := by omega
        have hmaskk :
            mask_bits (select_k st.counter (golomb_rhs st z) p.D) =
              2 ^ select_k st.counter (golomb_rhs st z) p.D - 1 := by
          unfold mask_bits
          rw [if_neg hknz, if_neg (by omega)]
        have hpk : 0 < 2 ^ select_k st.counter (golomb_rhs st z) p.D :=
          Nat.pos_pow_of_pos _ (by norm_num)
        have hch : encode_sample_bits p st ctrl z delta =
            List.replicate (delta >>> select_k st.counter (golomb_rhs st z) p.D) false ++
              [true] ++
              natBits (delta % 2 ^ select_k st.counter (golomb_rhs st z) p.D)
                (select_k st.counter (golomb_rhs st z) p.D) := by
          simp only [encode_sample_bits, hvalue]
          rw [if_neg hfs, if_neg hk32, if_neg hesc, if_pos hk0, hmaskk, and_mask]
        rw [hch] at hbud ⊢
        simp only [List.length_append, List.length_replicate, List.length_cons,
          List.length_nil, natBits_length] at hbud
        simp only [decode_sample]
        rw [if_neg hfs, List.append_assoc, List.append_assoc, List.singleton_append,
          read_unary_hit _ _ _ _ (by omega) (by omega)]
        simp only [ge_iff_le]
        rw [if_neg (by omega)]
        unfold read_bits_checked
        rw [if_neg hknz,
          readBits_spec _ _ _ _ (Nat.mod_lt _ hpk) (by omega)]
        simp only [List.length_append, List.length_replicate, List.length_cons,
          List.length_nil, natBits_length, Option.some.injEq, Prod.mk.injEq,
          Reader.mk.injEq]
        refine ⟨?_, by trivial, by omega⟩
        rw [lor_shift _ _ _ (Nat.mod_lt _ hpk), Nat.shiftRight_eq_div_pow,
          Nat.div_add_mod]
      · have hkz : select_k st.counter (golomb_rhs st z) p.D = 0 := by omega
        have hch : encode_sample_bits p st ctrl z delta =
            List.replicate delta false ++ [true] := by
          simp only [encode_sample_bits, hvalue]
          rw [if_neg hfs, if_neg hk32, hkz]
          simp only [Nat.shiftRight_zero]
          rw [if_neg (by rw [hkz, Nat.shiftRight_zero] at hesc; exact hesc),
            if_neg (by omega)]
          simp only [List.append_nil]
        rw [hch] at hbud ⊢
        simp only [List.length_append, List.length_replicate, List.length_cons,
          List.length_nil] at hbud
        have hdu : ¬(delta ≥ p.coder.u_max.toNat) := by
          rw [hkz, Nat.shiftRight_zero] at hesc; exact hesc
        simp only [decode_sample]
        rw [if_neg hfs, List.append_assoc, List.singleton_append,
          read_unary_hit _ _ _ _ (by omega) (by omega)]
        simp only [ge_iff_le]
        rw [if_neg (by omega)]
        unfold read_bits_checked
        rw [hkz, if_pos rfl]
        simp only [Nat.shiftLeft_zero, List.length_append, List.length_replicate,
          List.length_cons, List.length_nil, Option.some.injEq, Prod.mk.injEq,
          Reader.mk.injEq]
        refine ⟨by simp, by trivial⟩


end Ccsds123

namespace Ccsds123

/-- Helper: the prediction pipeline ignores the current sample: it only feeds
the unused central difference. -/
theorem step_prediction_cur (p : Params) (ctrl : CtrlSignals) (band : BandState)
    (x y : ℕ) (c : ℤ) :
    step_prediction p ctrl band x y c = step_prediction p ctrl band x y 0 := rfl

/-- Helper: with no previous-band sample the scaled prediction is in the
signed dynamic range and predicted is its arithmetic half. -/
theorem predictor_scaled_range (inp : Modules.PredictorInputs)
    (hprev : inp.prev_band_sample < 0) :
    -(2 ^ inp.depth.toNat) ≤ (Modules.predictor inp).scaled_pred ∧
      (Modules.predictor inp).scaled_pred ≤ 2 ^ inp.depth.toNat - 1 ∧
      (Modules.predictor inp).predicted =
        Modules.asr (Modules.predictor inp).scaled_pred 1 := by
  have h1 : (0:ℤ) < 2 ^ inp.depth.toNat := by positivity
  simp only [Modules.predictor]
  refine ⟨?_, ?_, by trivial⟩ <;>
    split_ifs with hfs hp
  · omega
  · omega
  · exact (clip_mem _ _ _ (by omega)).1
  · omega
  · omega
  · exact (clip_mem _ _ _ (by omega)).2


set_option maxHeartbeats 2000000 in
/-- Helper: one decoder step inverts one encoder step: on equal predictor,
band and coder state, with the encoder chunk at the head of the reader, the
decoder consumes exactly that chunk, mirrors the state update, and writes the
original input sample. -/
theorem decodeStep_sim (p : Params) (input : List ℕ) (n : ℕ) (st : EncState)
    (dst : DecState) (rest2 pad : List Bool)
    (hD1 : 1 ≤ p.D) (hD2 : p.D ≤ 16) (hu1 : 1 ≤ p.coder.u_max)
    (hcur : dst.cursor = st.cursor) (hband : dst.bands = st.bands)
    (hcod : dst.coder = st.coder)
    (hrd : dst.reader = ⟨(enc_chunk p input n st ++ rest2) ++ pad,
      (enc_chunk p input n st).length + rest2.length⟩)
    (hsample : input.getD ((step_ctrl p st.cursor).z * (p.NX.toNat * p.NY.toNat) +
      n / p.NZ.toNat) 0 < 2 ^ p.D.toNat) :
    decodeStep p n dst = some
      { cursor := (encodeStep p input n st).cursor,
        bands := (encodeStep p input n st).bands,
        coder := (encodeStep p input n st).coder,
        reader := ⟨rest2 ++ pad, rest2.length⟩,
        output := dst.output.set
          ((step_ctrl p st.cursor).z * (p.NX.toNat * p.NY.toNat) + n / p.NZ.toNat)
          (input.getD ((step_ctrl p st.cursor).z * (p.NX.toNat * p.NY.toNat) +
            n / p.NZ.toNat) 0) } := by
  have hDt1 : 1 ≤ p.D.toNat := by omega
  have h2cast : ((2 : ℤ) ^ p.D.toNat) = ((2 ^ p.D.toNat : ℕ) : ℤ) := by push_cast; ring
  have hhalf : (2 : ℤ) ^ p.D.toNat = 2 * 2 ^ (p.D.toNat - 1) := by
    have hD : p.D.toNat - 1 + 1 = p.D.toNat := by omega
    rw [mul_comm, ← pow_succ, hD]
  have hsp : ∀ (ctrl : CtrlSignals) (band : BandState) (x y : ℕ) (c : ℤ),
      -(2 ^ p.D.toNat) ≤ (step_prediction p ctrl band x y c).1.scaled_pred ∧
        (step_prediction p ctrl band x y c).1.scaled_pred ≤ 2 ^ p.D.toNat - 1 ∧
        (step_prediction p ctrl band x y c).1.predicted =
          Modules.asr (step_prediction p ctrl band x y c).1.scaled_pred 1 := by
    intro ctrl band x y c
    exact predictor_scaled_range _ (by norm_num)
  simp only [enc_chunk, enc_delta, step_ctrl] at hrd hsample ⊢
  rw [step_prediction_cur] at hrd
  simp only [decodeStep, encodeStep]
  rw [hcur, hband, hcod, hrd]
  rw [List.append_assoc]
  generalize hC : (control_step (control_config p) st.cursor).1.ctrl = C at *
  generalize hZ : (control_step (control_config p) st.cursor).1.z = Z at *
  generalize hB : st.bands.getD Z { } = B at *
  generalize hPIX : n / p.NZ.toNat = PIX at *
  generalize hv : input.getD (Z * (p.NX.toNat * p.NY.toNat) + PIX) 0 = v at *
  generalize hPD :
    step_prediction p C B (PIX % p.NX.toNat) (PIX / p.NX.toNat) 0 = PD at *
  obtain ⟨hpilo, hpihi, hpred⟩ := hsp C B (PIX % p.NX.toNat) (PIX / p.NX.toNat) 0
  rw [hPD] at hpilo hpihi hpred
  rw [step_prediction_cur p C B (PIX % p.NX.toNat) (PIX / p.NX.toNat)
    ((v : ℤ) - 2 ^ (p.D.toNat - 1)), hPD]
  have hsclo : -(2 ^ (p.D.toNat - 1)) ≤ (v : ℤ) - 2 ^ (p.D.toNat - 1) := by
    have h0 : (0:ℤ) ≤ (v:ℤ) := Int.natCast_nonneg v
    omega
  have hvlt : (v : ℤ) < 2 ^ p.D.toNat := by rw [h2cast]; exact_mod_cast hsample
  have hschi : (v : ℤ) - 2 ^ (p.D.toNat - 1) ≤ 2 ^ (p.D.toNat - 1) - 1 := by omega
  have hmnn := residual_map_nonneg p.D.toNat PD.1.scaled_pred
    ((v : ℤ) - 2 ^ (p.D.toNat - 1)) hDt1 hpilo hpihi hsclo hschi
  have hmle := residual_map_le p.D.toNat PD.1.scaled_pred
    ((v : ℤ) - 2 ^ (p.D.toNat - 1)) hDt1 hpilo hpihi hsclo hschi
  have hdelta : (Modules.residual_map ((v : ℤ) - 2 ^ (p.D.toNat - 1))
      PD.1.scaled_pred p.D.toNat).toNat < 2 ^ p.D.toNat := by omega
  rw [golomb_decode_spec p st.coder C Z _ (rest2 ++ pad) _ hD1 hD2 hu1 hdelta
    (Nat.le_add_right _ _)]
  dsimp only
  have hcast : ((Modules.residual_map ((v : ℤ) - 2 ^ (p.D.toNat - 1))
      PD.1.scaled_pred p.D.toNat).toNat : ℤ) =
      Modules.residual_map ((v : ℤ) - 2 ^ (p.D.toNat - 1)) PD.1.scaled_pred p.D.toNat :=
    Int.toNat_of_nonneg hmnn
  rw [hcast]
  rw [mapper_roundtrip p.D.toNat PD.1.scaled_pred _ hDt1 hpilo hpihi hsclo hschi]
  rw [hpred]
  have hsum : Modules.asr PD.1.scaled_pred 1 +
      ((v : ℤ) - 2 ^ (p.D.toNat - 1) - Modules.asr PD.1.scaled_pred 1) =
      (v : ℤ) - 2 ^ (p.D.toNat - 1) := by ring
  rw [hsum]
  have hvv : (v : ℤ) - 2 ^ (p.D.toNat - 1) + 2 ^ (p.D.toNat - 1) = (v : ℤ) := by ring
  rw [hvv]
  have hclip : (Modules.clip (v : ℤ) 0 (2 ^ p.D.toNat - 1)).toNat = v := by
    unfold Modules.clip
    omega
  rw [hclip]
  simp only [Option.some.injEq, DecState.mk.injEq, Reader.mk.injEq]
  first
    | omega
    | exact ⟨trivial, trivial, trivial, ⟨trivial, by omega⟩, trivial⟩
    | exact ⟨rfl, rfl, rfl, ⟨rfl, by omega⟩, rfl⟩


/-- Helper: mod and div of the interleaved index. -/
theorem interleave_mod_div (a b n : ℕ) (hn : n < a * b) :
    ((n % a) * b + n / a) % b = n / a ∧ ((n % a) * b + n / a) / b = n % a := by
  have ha : 0 < a := by
    rcases Nat.eq_zero_or_pos a with h | h
    · subst h; simp at hn
    · exact h
  have hb : 0 < b := by
    rcases Nat.eq_zero_or_pos b with h | h
    · subst h; simp at hn
    · exact h
  have hdiv : n / a < b := by
    rw [Nat.div_lt_iff_lt_mul ha]
    rw [Nat.mul_comm] at hn
    exact hn
  have h1 : (n % a) * b + n / a = b * (n % a) + n / a := by ring
  constructor
  · rw [h1, Nat.mul_add_mod, Nat.mod_eq_of_lt hdiv]
  · rw [h1, Nat.mul_add_div hb, Nat.div_eq_of_lt hdiv, Nat.add_zero]

/-- Helper: writing the sample of step n advances the simulated output map
from threshold n to threshold n + 1. -/
theorem sim_output_set (stride nz : ℕ) (input : List ℕ) (n : ℕ)
    (hn : n < stride * nz) :
    ((List.range (stride * nz)).map (fun j =>
        if (j % stride) * nz + j / stride < n then input.getD j 0 else 0)).set
      ((n % nz) * stride + n / nz) (input.getD ((n % nz) * stride + n / nz) 0) =
    (List.range (stride * nz)).map (fun j =>
        if (j % stride) * nz + j / stride < n + 1 then input.getD j 0 else 0) := by
  have hnz : 0 < nz := by
    rcases Nat.eq_zero_or_pos nz with h | h
    · subst h; simp at hn
    · exact h
  have hmr : n < nz * stride := by rw [Nat.mul_comm]; exact hn
  have hintl := interleave_mod_div nz stride n hmr
  have hsidx : ((n % nz) * stride + n / nz) % stride * nz +
      ((n % nz) * stride + n / nz) / stride = n := by
    rw [hintl.1, hintl.2]
    rw [Nat.mul_comm]
    exact Nat.div_add_mod n nz
  apply List.ext_getElem
  · simp
  intro i h1 h2
  simp only [List.length_set, List.length_map, List.length_range] at h1 h2
  simp only [List.getElem_set, List.getElem_map, List.getElem_range]
  by_cases hie : (n % nz) * stride + n / nz = i
  · rw [if_pos hie]
    have : (i % stride) * nz + i / stride = n := by rw [← hie]; exact hsidx
    rw [if_pos (by omega), hie]
  · rw [if_neg hie]
    have hne : (i % stride) * nz + i / stride ≠ n := by
      intro he
      apply hie
      have h3 := interleave_mod_div stride nz i h1
      rw [he] at h3
      rw [h3.1, h3.2, Nat.mul_comm]
      exact Nat.div_add_mod i stride
    by_cases hlt : (i % stride) * nz + i / stride < n
    · rw [if_pos hlt, if_pos (by omega)]
    · rw [if_neg hlt, if_neg (by omega)]

/-- Helper: the encoder cursor follows the iterated controller. -/
theorem encodeSteps_cursor (p : Params) (input : List ℕ) :
    ∀ n, (encodeSteps p input n).cursor = control_iter (control_config p) n := by
  intro n
  induction n with
  | zero => rfl
  | succ n ih => simp only [encodeSteps, encodeStep, control_iter, ih]

/-- Helper: each encoder step appends its chunk to the bit stream. -/
theorem encodeSteps_bits (p : Params) (input : List ℕ) (n : ℕ) :
    (encodeSteps p input (n + 1)).bits =
      (encodeSteps p input n).bits ++ enc_chunk p input n (encodeSteps p input n) := rfl

/-- Helper: earlier encoder bit streams are prefixes of later ones. -/
theorem encodeSteps_bits_prefix (p : Params) (input : List ℕ) (n : ℕ) :
    ∀ m, n ≤ m →
      ∃ t, (encodeSteps p input m).bits = (encodeSteps p input n).bits ++ t := by
  intro m
  induction m with
  | zero =>
      intro h
      obtain rfl : n = 0 := Nat.le_zero.mp h
      exact ⟨[], by simp⟩
  | succ m ih =>
      intro h
      rcases Nat.lt_or_ge n (m + 1) with hlt | hge
      · obtain ⟨t, ht⟩ := ih (by omega)
        refine ⟨t ++ enc_chunk p input m (encodeSteps p input m), ?_⟩
        rw [encodeSteps_bits, ht, List.append_assoc]
      · have he : n = m + 1 := by omega
        subst he
        exact ⟨[], by simp⟩

set_option maxHeartbeats 1000000 in
/-- Helper: the decoder loop simulates the encoder loop step by step on the
encoder's own bit stream. -/
theorem decodeSteps_sim (p : Params) (input : List ℕ) (pad : List Bool)
    (hD1 : 1 ≤ p.D) (hD2 : p.D ≤ 16) (hu1 : 1 ≤ p.coder.u_max)
    (hNX : 0 < p.NX.toNat) (hNY : 0 < p.NY.toNat) (hNZ : 0 < p.NZ.toNat)
    (hinput : ∀ j : ℕ, input.getD j 0 < 2 ^ p.D.toNat) :
    ∀ n, n ≤ p.NX.toNat * p.NY.toNat * p.NZ.toNat →
    ∃ rest,
      (encodeSteps p input (p.NX.toNat * p.NY.toNat * p.NZ.toNat)).bits =
        (encodeSteps p input n).bits ++ rest ∧
      decodeSteps p n
        { cursor := {}, bands := create_band_states p,
          coder := { counter := 0, accumulators := List.replicate p.NZ.toNat 0 },
          reader := ⟨(encodeSteps p input (p.NX.toNat * p.NY.toNat * p.NZ.toNat)).bits ++
              pad,
            (encodeSteps p input (p.NX.toNat * p.NY.toNat * p.NZ.toNat)).bits.length⟩,
          output := List.replicate (p.NX.toNat * p.NY.toNat * p.NZ.toNat) 0 } =
        some { cursor := (encodeSteps p input n).cursor,
               bands := (encodeSteps p input n).bands,
               coder := (encodeSteps p input n).coder,
               reader := ⟨rest ++ pad, rest.length⟩,
               output := (List.range (p.NX.toNat * p.NY.toNat * p.NZ.toNat)).map
                 (fun j => if (j % (p.NX.toNat * p.NY.toNat)) * p.NZ.toNat +
                     j / (p.NX.toNat * p.NY.toNat) < n then input.getD j 0 else 0) } := by
  intro n
  induction n with
  | zero =>
      intro _
      refine ⟨(encodeSteps p input (p.NX.toNat * p.NY.toNat * p.NZ.toNat)).bits,
        by simp [encodeSteps, enc_init], ?_⟩
      simp only [decodeSteps, Option.some.injEq, DecState.mk.injEq]
      refine ⟨by trivial, by trivial, by trivial, by trivial, ?_⟩
      simp
  | succ n ih =>
      intro hn1
      obtain ⟨rest, hpre, hdec⟩ := ih (by omega)
      obtain ⟨t, ht⟩ := encodeSteps_bits_prefix p input (n + 1)
        (p.NX.toNat * p.NY.toNat * p.NZ.toNat) hn1
      have hrest : rest = enc_chunk p input n (encodeSteps p input n) ++ t := by
        have h1 : (encodeSteps p input n).bits ++ rest =
            (encodeSteps p input n).bits ++
              (enc_chunk p input n (encodeSteps p input n) ++ t) := by
          rw [← hpre, ht, encodeSteps_bits, List.append_assoc]
        exact List.append_cancel_left h1
      subst hrest
      refine ⟨t, ht, ?_⟩
      simp only [decodeSteps]
      rw [hdec]
      dsimp only
      have hzz : (step_ctrl p (encodeSteps p input n).cursor).z = n % p.NZ.toNat := by
        simp only [step_ctrl]
        have hout : (control_step (control_config p) (encodeSteps p input n).cursor).1.z =
            (encodeSteps p input n).cursor.z := rfl
        rw [hout, encodeSteps_cursor, control_iter_char (control_config p)
          (by simp only [control_config]; omega) (by simp only [control_config]; omega)
          (by simp only [control_config]; omega) n]
        rfl
      rw [decodeStep_sim p input n (encodeSteps p input n) _ t pad hD1 hD2 hu1 rfl rfl rfl
        (by simp) (hinput _)]
      simp only [encodeSteps]
      rw [hzz, sim_output_set (p.NX.toNat * p.NY.toNat) p.NZ.toNat input n (by omega)]



set_option maxHeartbeats 1000000 in
/-- Helper: parsing a v3 header written by make_header recovers every stored
field when the int fields fit their 16-bit header slots. -/
theorem parse_headerV3 (p : Params) (L : ℕ) (rest : List ℕ)
    (hNX1 : 0 < p.NX) (hNX2 : p.NX ≤ 65535)
    (hNY1 : 0 < p.NY) (hNY2 : p.NY ≤ 65535)
    (hNZ1 : 0 < p.NZ) (hNZ2 : p.NZ ≤ 65535)
    (hD1 : 0 < p.D) (hD2 : p.D ≤ 16)
    (hP1 : 0 ≤ p.P) (hP2 : p.P ≤ 65535)
    (hvmin1 : -32768 ≤ p.v_min) (hvmin2 : p.v_min ≤ 32767)
    (hvmax1 : -32768 ≤ p.v_max) (hvmax2 : p.v_max ≤ 32767)
    (hom1 : 0 < p.omega) (hom2 : p.omega ≤ 31)
    (hrb1 : 0 < p.register_bits) (hrb2 : p.register_bits ≤ 64)
    (hti1 : -32768 ≤ p.tinc_log) (hti2 : p.tinc_log ≤ 32767)
    (hum1 : 0 < p.coder.u_max) (hum2 : p.coder.u_max ≤ 32)
    (hcs1 : 0 < p.coder.counter_size) (hcs2 : p.coder.counter_size ≤ 16)
    (hic1 : 0 ≤ p.coder.initial_count_exponent) (hic2 : p.coder.initial_count_exponent ≤ 16)
    (hkz1 : 0 ≤ p.coder.kz_prime) (hkz2 : p.coder.kz_prime ≤ 16)
    (hth : p.theta = 0) :
    parse_header (headerV3Bytes p L ++ rest) =
      .ok { params := p, payload_bits := L % 2 ^ 32, version := 3 } := by
  have hlen46 : (headerV3Bytes p L ++ rest).length = 46 + rest.length := by
    simp [headerV3Bytes, le16, le32]
    omega
  have hver : readU16 (headerV3Bytes p L ++ rest) 4 = 3 := by
    simp [headerV3Bytes, le16, le32, readU16]
  have hmag0 : (headerV3Bytes p L ++ rest).getD 0 0 = 67 := by
    simp [headerV3Bytes, le16, le32]
  have hmag1 : (headerV3Bytes p L ++ rest).getD 1 0 = 49 := by
    simp [headerV3Bytes, le16, le32]
  have hmag2 : (headerV3Bytes p L ++ rest).getD 2 0 = 50 := by
    simp [headerV3Bytes, le16, le32]
  have hmag3 : (headerV3Bytes p L ++ rest).getD 3 0 = 51 := by
    simp [headerV3Bytes, le16, le32]
  have hNXr : ((readU16 (headerV3Bytes p L ++ rest) 6 : ℕ) : ℤ) = p.NX := by
    have e1 : (headerV3Bytes p L ++ rest).getD 6 0 = (p.NX % 2 ^ 16).toNat % 2 ^ 8 := by
      simp [headerV3Bytes, le16, le32, u16_of_int]
    have e2 : (headerV3Bytes p L ++ rest).getD 7 0 = (p.NX % 2 ^ 16).toNat / 2 ^ 8 % 2 ^ 8 := by
      simp [headerV3Bytes, le16, le32, u16_of_int]
    unfold readU16
    rw [e1, e2]
    omega
  have hNYr : ((readU16 (headerV3Bytes p L ++ rest) 8 : ℕ) : ℤ) = p.NY := by
    have e1 : (headerV3Bytes p L ++ rest).getD 8 0 = (p.NY % 2 ^ 16).toNat % 2 ^ 8 := by
      simp [headerV3Bytes, le16, le32, u16_of_int]
    have e2 : (headerV3Bytes p L ++ rest).getD 9 0 = (p.NY % 2 ^ 16).toNat / 2 ^ 8 % 2 ^ 8 := by
      simp [headerV3Bytes, le16, le32, u16_of_int]
    unfold readU16
    rw [e1, e2]
    omega
  have hNZr : ((readU16 (headerV3Bytes p L ++ rest) 10 : ℕ) : ℤ) = p.NZ := by
    have e1 : (headerV3Bytes p L ++ rest).getD 10 0 = (p.NZ % 2 ^ 16).toNat % 2 ^ 8 := by
      simp [headerV3Bytes, le16, le32, u16_of_int]
    have e2 : (headerV3Bytes p L ++ rest).getD 11 0 = (p.NZ % 2 ^ 16).toNat / 2 ^ 8 % 2 ^ 8 := by
      simp [headerV3Bytes, le16, le32, u16_of_int]
    unfold readU16
    rw [e1, e2]
    omega
  have hDr : ((readU16 (headerV3Bytes p L ++ rest) 12 : ℕ) : ℤ) = p.D := by
    have e1 : (headerV3Bytes p L ++ rest).getD 12 0 = (p.D % 2 ^ 16).toNat % 2 ^ 8 := by
      simp [headerV3Bytes, le16, le32, u16_of_int]
    have e2 : (headerV3Bytes p L ++ rest).getD 13 0 = (p.D % 2 ^ 16).toNat / 2 ^ 8 % 2 ^ 8 := by
      simp [headerV3Bytes, le16, le32, u16_of_int]
    unfold readU16
    rw [e1, e2]
    omega
  have hPr : ((readU16 (headerV3Bytes p L ++ rest) 14 : ℕ) : ℤ) = p.P := by
    have e1 : (headerV3Bytes p L ++ rest).getD 14 0 = (p.P % 2 ^ 16).toNat % 2 ^ 8 := by
      simp [headerV3Bytes, le16, le32, u16_of_int]
    have e2 : (headerV3Bytes p L ++ rest).getD 15 0 = (p.P % 2 ^ 16).toNat / 2 ^ 8 % 2 ^ 8 := by
      simp [headerV3Bytes, le16, le32, u16_of_int]
    unfold readU16
    rw [e1, e2]
    omega
  have hlsr : LocalSumMode.ofVal (readU16 (headerV3Bytes p L ++ rest) 16) = p.local_sum := by
    have e1 : (headerV3Bytes p L ++ rest).getD 16 0 = p.local_sum.toVal % 2 ^ 8 := by
      simp [headerV3Bytes, le16, le32, u16_of_int]
    have e2 : (headerV3Bytes p L ++ rest).getD 17 0 = p.local_sum.toVal / 2 ^ 8 % 2 ^ 8 := by
      simp [headerV3Bytes, le16, le32, u16_of_int]
    unfold readU16
    rw [e1, e2]
    cases p.local_sum <;> rfl
  have hflr : decide (readU16 (headerV3Bytes p L ++ rest) 18 % 2 = 1) = p.reduced := by
    have e1 : (headerV3Bytes p L ++ rest).getD 18 0 = ((if p.reduced then 1 else 0) + (if p.column_oriented then 2 else 0)) % 2 ^ 8 := by
      simp [headerV3Bytes, le16, le32, u16_of_int]
    have e2 : (headerV3Bytes p L ++ rest).getD 19 0 = ((if p.reduced then 1 else 0) + (if p.column_oriented then 2 else 0)) / 2 ^ 8 % 2 ^ 8 := by
      simp [headerV3Bytes, le16, le32, u16_of_int]
    unfold readU16
    rw [e1, e2]
    cases p.reduced <;> cases p.column_oriented <;> rfl
  have hcolr : decide (readU16 (headerV3Bytes p L ++ rest) 18 / 2 % 2 = 1) = p.column_oriented := by
    have e1 : (headerV3Bytes p L ++ rest).getD 18 0 = ((if p.reduced then 1 else 0) + (if p.column_oriented then 2 else 0)) % 2 ^ 8 := by
      simp [headerV3Bytes, le16, le32, u16_of_int]
    have e2 : (headerV3Bytes p L ++ rest).getD 19 0 = ((if p.reduced then 1 else 0) + (if p.column_oriented then 2 else 0)) / 2 ^ 8 % 2 ^ 8 := by
      simp [headerV3Bytes, le16, le32, u16_of_int]
    unfold readU16
    rw [e1, e2]
    cases p.reduced <;> cases p.column_oriented <;> rfl
  have hvminr : readI16 (headerV3Bytes p L ++ rest) 20 = p.v_min := by
    have e1 : (headerV3Bytes p L ++ rest).getD 20 0 = (p.v_min % 2 ^ 16).toNat % 2 ^ 8 := by
      simp [headerV3Bytes, le16, le32, u16_of_int]
    have e2 : (headerV3Bytes p L ++ rest).getD 21 0 = (p.v_min % 2 ^ 16).toNat / 2 ^ 8 % 2 ^ 8 := by
      simp [headerV3Bytes, le16, le32, u16_of_int]
    unfold readI16 readU16
    rw [e1, e2]
    dsimp only
    split_ifs <;> omega
  have hvmaxr : readI16 (headerV3Bytes p L ++ rest) 22 = p.v_max := by
    have e1 : (headerV3Bytes p L ++ rest).getD 22 0 = (p.v_max % 2 ^ 16).toNat % 2 ^ 8 := by
      simp [headerV3Bytes, le16, le32, u16_of_int]
    have e2 : (headerV3Bytes p L ++ rest).getD 23 0 = (p.v_max % 2 ^ 16).toNat / 2 ^ 8 % 2 ^ 8 := by
      simp [headerV3Bytes, le16, le32, u16_of_int]
    unfold readI16 readU16
    rw [e1, e2]
    dsimp only
    split_ifs <;> omega
  have homr : readI16 (headerV3Bytes p L ++ rest) 24 = p.omega := by
    have e1 : (headerV3Bytes p L ++ rest).getD 24 0 = (p.omega % 2 ^ 16).toNat % 2 ^ 8 := by
      simp [headerV3Bytes, le16, le32, u16_of_int]
    have e2 : (headerV3Bytes p L ++ rest).getD 25 0 = (p.omega % 2 ^ 16).toNat / 2 ^ 8 % 2 ^ 8 := by
      simp [headerV3Bytes, le16, le32, u16_of_int]
    unfold readI16 readU16
    rw [e1, e2]
    dsimp only
    split_ifs <;> omega
  have hrbr : readI16 (headerV3Bytes p L ++ rest) 26 = p.register_bits := by
    have e1 : (headerV3Bytes p L ++ rest).getD 26 0 = (p.register_bits % 2 ^ 16).toNat % 2 ^ 8 := by
      simp [headerV3Bytes, le16, le32, u16_of_int]
    have e2 : (headerV3Bytes p L ++ rest).getD 27 0 = (p.register_bits % 2 ^ 16).toNat / 2 ^ 8 % 2 ^ 8 := by
      simp [headerV3Bytes, le16, le32, u16_of_int]
    unfold readI16 readU16
    rw [e1, e2]
    dsimp only
    split_ifs <;> omega
  have htir : readI16 (headerV3Bytes p L ++ rest) 28 = p.tinc_log := by
    have e1 : (headerV3Bytes p L ++ rest).getD 28 0 = (p.tinc_log % 2 ^ 16).toNat % 2 ^ 8 := by
      simp [headerV3Bytes, le16, le32, u16_of_int]
    have e2 : (headerV3Bytes p L ++ rest).getD 29 0 = (p.tinc_log % 2 ^ 16).toNat / 2 ^ 8 % 2 ^ 8 := by
      simp [headerV3Bytes, le16, le32, u16_of_int]
    unfold readI16 readU16
    rw [e1, e2]
    dsimp only
    split_ifs <;> omega
  have humr : ((readU16 (headerV3Bytes p L ++ rest) 30 : ℕ) : ℤ) = p.coder.u_max := by
    have e1 : (headerV3Bytes p L ++ rest).getD 30 0 = (p.coder.u_max % 2 ^ 16).toNat % 2 ^ 8 := by
      simp [headerV3Bytes, le16, le32, u16_of_int]
    have e2 : (headerV3Bytes p L ++ rest).getD 31 0 = (p.coder.u_max % 2 ^ 16).toNat / 2 ^ 8 % 2 ^ 8 := by
      simp [headerV3Bytes, le16, le32, u16_of_int]
    unfold readU16
    rw [e1, e2]
    omega
  have hcsr : ((readU16 (headerV3Bytes p L ++ rest) 32 : ℕ) : ℤ) = p.coder.counter_size := by
    have e1 : (headerV3Bytes p L ++ rest).getD 32 0 = (p.coder.counter_size % 2 ^ 16).toNat % 2 ^ 8 := by
      simp [headerV3Bytes, le16, le32, u16_of_int]
    have e2 : (headerV3Bytes p L ++ rest).getD 33 0 = (p.coder.counter_size % 2 ^ 16).toNat / 2 ^ 8 % 2 ^ 8 := by
      simp [headerV3Bytes, le16, le32, u16_of_int]
    unfold readU16
    rw [e1, e2]
    omega
  have hicer : ((readU16 (headerV3Bytes p L ++ rest) 34 : ℕ) : ℤ) = p.coder.initial_count_exponent := by
    have e1 : (headerV3Bytes p L ++ rest).getD 34 0 = (p.coder.initial_count_exponent % 2 ^ 16).toNat % 2 ^ 8 := by
      simp [headerV3Bytes, le16, le32, u16_of_int]
    have e2 : (headerV3Bytes p L ++ rest).getD 35 0 = (p.coder.initial_count_exponent % 2 ^ 16).toNat / 2 ^ 8 % 2 ^ 8 := by
      simp [headerV3Bytes, le16, le32, u16_of_int]
    unfold readU16
    rw [e1, e2]
    omega
  have hkzr : ((readU16 (headerV3Bytes p L ++ rest) 36 : ℕ) : ℤ) = p.coder.kz_prime := by
    have e1 : (headerV3Bytes p L ++ rest).getD 36 0 = (p.coder.kz_prime % 2 ^ 16).toNat % 2 ^ 8 := by
      simp [headerV3Bytes, le16, le32, u16_of_int]
    have e2 : (headerV3Bytes p L ++ rest).getD 37 0 = (p.coder.kz_prime % 2 ^ 16).toNat / 2 ^ 8 % 2 ^ 8 := by
      simp [headerV3Bytes, le16, le32, u16_of_int]
    unfold readU16
    rw [e1, e2]
    omega
  have hplr : readU32 (headerV3Bytes p L ++ rest) 38 = L % 2 ^ 32 := by
    have e1 : (headerV3Bytes p L ++ rest).getD 38 0 = L % 2 ^ 32 % 2 ^ 8 := by
      simp [headerV3Bytes, le16, le32, u16_of_int]
    have e2 : (headerV3Bytes p L ++ rest).getD 39 0 = L % 2 ^ 32 / 2 ^ 8 % 2 ^ 8 := by
      simp [headerV3Bytes, le16, le32, u16_of_int]
    have e3 : (headerV3Bytes p L ++ rest).getD 40 0 = L % 2 ^ 32 / 2 ^ 16 % 2 ^ 8 := by
      simp [headerV3Bytes, le16, le32, u16_of_int]
    have e4 : (headerV3Bytes p L ++ rest).getD 41 0 = L % 2 ^ 32 / 2 ^ 24 % 2 ^ 8 := by
      simp [headerV3Bytes, le16, le32, u16_of_int]
    unfold readU32
    rw [e1, e2, e3, e4]
    omega
  unfold parse_header
  rw [if_neg (by rw [hlen46]; omega)]
  rw [if_neg (not_not_intro ⟨hmag0, hmag1, hmag2, hmag3⟩)]
  rw [if_neg (by rw [hver]; omega)]
  rw [if_neg (not_not_intro hver)]
  rw [if_neg (by rw [hlen46]; omega)]
  rw [hNXr, hNYr, hNZr, hDr, hPr, hlsr, hflr, hcolr, hvminr, hvmaxr, homr, hrbr, htir,
    humr, hcsr, hicer, hkzr, hplr, ← hth]

/-- Helper: total payload bit count is bounded by samples times chunk bound. -/
theorem encodeSteps_bits_le (p : Params) (input : List ℕ)
    (hD1 : 1 ≤ p.D) (hD2 : p.D ≤ 16) (hu1 : 1 ≤ p.coder.u_max) :
    ∀ n, (encodeSteps p input n).bits.length ≤ n * (p.coder.u_max.toNat + p.D.toNat) := by
  intro n
  induction n with
  | zero => simp [encodeSteps, enc_init]
  | succ n ih =>
      rw [encodeSteps_bits, List.length_append]
      have hc : (enc_chunk p input n (encodeSteps p input n)).length ≤
          p.coder.u_max.toNat + p.D.toNat := by
        simp only [enc_chunk]
        exact encode_sample_bits_length p _ _ _ _ hD1 hD2 hu1
      rw [Nat.succ_mul]
      omega

/-- Helper: after all samples the simulated output map is the input itself. -/
theorem sim_output_final (stride nz : ℕ) (input : List ℕ)
    (hlen : input.length = stride * nz) :
    (List.range (stride * nz)).map (fun j =>
        if (j % stride) * nz + j / stride < stride * nz then input.getD j 0 else 0) =
      input := by
  apply List.ext_getElem
  · simp [hlen]
  intro i h1 h2
  simp only [List.length_map, List.length_range] at h1
  simp only [List.getElem_map, List.getElem_range]
  have hstride : 0 < stride := by
    rcases Nat.eq_zero_or_pos stride with h | h
    · subst h; simp at h1
    · exact h
  have hnz : 0 < nz := by
    rcases Nat.eq_zero_or_pos nz with h | h
    · subst h; simp at h1
    · exact h
  have hdiv : i / stride < nz := by
    rw [Nat.div_lt_iff_lt_mul hstride]
    rw [Nat.mul_comm nz stride] at *
    exact h1
  have hcond : (i % stride) * nz + i / stride < stride * nz := by
    calc (i % stride) * nz + i / stride < (i % stride) * nz + nz :=
          Nat.add_lt_add_left hdiv _
      _ = (i % stride + 1) * nz := by ring
      _ ≤ stride * nz := Nat.mul_le_mul_right _ (Nat.mod_lt _ hstride)
  rw [if_pos hcond, List.getD_eq_getElem _ _ (by omega)]


set_option maxHeartbeats 2000000 in
/-- C1 (amended): for every parameter set accepted by validation whose int
fields also fit their 16-bit header slots (NX, NY, NZ ≤ 65535; v_min, v_max,
tinc_log in the i16 range) and whose worst-case payload bit count fits the
u32 payload_bits header field, encoding any image of NX*NY*NZ samples with
values in [0, 2^D - 1] and decoding the resulting container with the same
params recovers the image exactly. -/
theorem c1_round_trip (p : Params) (input : List ℕ)
    (hval : validateParams p = true)
    (hNXb : p.NX ≤ 65535) (hNYb : p.NY ≤ 65535) (hNZb : p.NZ ≤ 65535)
    (hvminb : -32768 ≤ p.v_min) (hvmaxb : p.v_max ≤ 32767)
    (hti1 : -32768 ≤ p.tinc_log) (hti2 : p.tinc_log ≤ 32767)
    (hlen : input.length = p.NX.toNat * p.NY.toNat * p.NZ.toNat)
    (hin : ∀ v ∈ input, v < 2 ^ p.D.toNat)
    (hfit : p.NX.toNat * p.NY.toNat * p.NZ.toNat *
      (p.coder.u_max.toNat + p.D.toNat) < 2 ^ 32) :
    ∃ container, encode input p = Except.ok container ∧
      decode container p = Except.ok input := by
  have hv := hval
  simp only [validateParams, decide_eq_true_eq, not_or] at hv
  obtain ⟨⟨hx1, hy1, hz1⟩, ⟨hd1, hd2⟩, hP, hred, hls, hth, ⟨ho1, ho2⟩, ⟨hr1, hr2⟩,
    hvv, ⟨hu1a, hu2a⟩, ⟨hc1a, hc2a⟩, ⟨hi1a, hi2a⟩, ⟨hk1a, hk2a⟩⟩ := hv
  have hD1 : 1 ≤ p.D := by omega
  have hD2' : p.D ≤ 16 := by omega
  have hu1 : 1 ≤ p.coder.u_max := by omega
  have hNXt : 0 < p.NX.toNat := by omega
  have hNYt : 0 < p.NY.toNat := by omega
  have hNZt : 0 < p.NZ.toNat := by omega
  have hinput : ∀ j : ℕ, input.getD j 0 < 2 ^ p.D.toNat := by
    intro j
    by_cases hj : j < input.length
    · rw [List.getD_eq_getElem _ _ hj]
      exact hin _ (List.getElem_mem _)
    · rw [List.getD_eq_default _ _ (by omega)]
      exact Nat.pos_pow_of_pos _ (by norm_num)
  have henc : encode input p = Except.ok
      (headerV3Bytes p (encode_payload_bits p input).length ++
        byteify (encode_payload_bits p input)) := by
    unfold encode
    rw [if_neg (not_not_intro hval), if_neg (not_not_intro hlen)]
  refine ⟨_, henc, ?_⟩
  have hbl : (encode_payload_bits p input).length < 2 ^ 32 := by
    have hb := encodeSteps_bits_le p input hD1 hD2' hu1
      (p.NX.toNat * p.NY.toNat * p.NZ.toNat)
    have he : encode_payload_bits p input =
        (encodeSteps p input (p.NX.toNat * p.NY.toNat * p.NZ.toNat)).bits := rfl
    rw [he]
    omega
  have hh46 : (headerV3Bytes p (encode_payload_bits p input).length).length = 46 := by
    simp [headerV3Bytes, le16, le32]
  obtain ⟨pad, hpad⟩ := unpack_byteify (encode_payload_bits p input)
  unfold decode
  rw [if_neg (by rw [List.length_append, hh46]; omega)]
  rw [parse_headerV3 p (encode_payload_bits p input).length
    (byteify (encode_payload_bits p input))
    (by omega) hNXb (by omega) hNYb (by omega) hNZb (by omega) (by omega)
    (by omega) (by omega) hvminb (by omega) (by omega) hvmaxb (by omega) (by omega)
    (by omega) (by omega) hti1 hti2 (by omega) (by omega) (by omega) (by omega)
    (by omega) (by omega) (by omega) (by omega) hth]
  dsimp only
  have heta : ({ NX := p.NX, NY := p.NY, NZ := p.NZ, D := p.D, P := p.P,
                 reduced := p.reduced, column_oriented := p.column_oriented,
                 local_sum := p.local_sum, theta := p.theta, omega := p.omega,
                 register_bits := p.register_bits, v_min := p.v_min, v_max := p.v_max,
                 tinc_log := p.tinc_log, coder := p.coder } : Params) = p := rfl
  rw [heta]
  rw [if_neg (not_not_intro hval)]
  rw [if_neg (not_not_intro rfl)]
  rw [if_pos rfl]
  rw [show (46 : ℕ) = (headerV3Bytes p (encode_payload_bits p input).length).length from
    hh46.symm, List.drop_left]
  rw [Nat.mod_eq_of_lt hbl]
  obtain ⟨rest, hpre, hsim⟩ := decodeSteps_sim p input pad hD1 hD2' hu1 hNXt hNYt hNZt
    hinput (p.NX.toNat * p.NY.toNat * p.NZ.toNat) (le_refl _)
  simp only [encode_payload_bits] at hpad ⊢
  simp only [dec_init]
  rw [hpad]
  rw [hsim]
  dsimp only
  rw [sim_output_final (p.NX.toNat * p.NY.toNat) p.NZ.toNat input hlen]


/-- C1 witness: the single-sample round trip at NX = NY = NZ = 1, D = 8. -/
theorem c1_round_trip_witness :
    ∃ container, encode [128] paramsSingle = Except.ok container ∧
      decode container paramsSingle = Except.ok [128] :=
  c1_round_trip paramsSingle [128] (by decide) (by decide) (by decide) (by decide)
    (by decide) (by decide) (by decide) (by decide) (by decide) (by decide) (by decide)

end Ccsds123

namespace Ccsds123

/-- Helper: a successful bit read is unaffected by bits appended after the
stream. -/
theorem readBit_ext (E bits : List Bool) (bud : ℕ) (b : Bool) (r1 : Reader)
    (h : readBit ⟨bits, bud⟩ = some (b, r1)) :
    readBit ⟨bits ++ E, bud⟩ = some (b, ⟨r1.bits ++ E, r1.budget⟩) := by
  unfold readBit at h ⊢
  by_cases h0 : bud = 0
  · simp [h0] at h
  · simp only [h0, if_false] at h ⊢
    cases bits with
    | nil => simp at h
    | cons x xs =>
        simp only [List.cons_append] at h ⊢
        simp only [Option.some.injEq, Prod.mk.injEq] at h ⊢
        exact ⟨h.1, by rw [← h.2]⟩

/-- Helper: a successful multi-bit read is unaffected by appended bits. -/
theorem readBitsAux_ext (E : List Bool) :
    ∀ (n acc : ℕ) (bits : List Bool) (bud : ℕ) (v : ℕ) (r1 : Reader),
      readBitsAux acc n ⟨bits, bud⟩ = some (v, r1) →
      readBitsAux acc n ⟨bits ++ E, bud⟩ = some (v, ⟨r1.bits ++ E, r1.budget⟩) := by
  intro n
  induction n with
  | zero =>
      intro acc bits bud v r1 h
      simp only [readBitsAux, Option.some.injEq, Prod.mk.injEq] at h ⊢
      exact ⟨h.1, by rw [← h.2]⟩
  | succ n ih =>
      intro acc bits bud v r1 h
      simp only [readBitsAux] at h ⊢
      cases hb : readBit ⟨bits, bud⟩ with
      | none => rw [hb] at h; simp at h
      | some br =>
          obtain ⟨b, r2⟩ := br
          rw [hb] at h
          rw [readBit_ext E bits bud b r2 hb]
          dsimp only at h ⊢
          obtain ⟨bits2, bud2⟩ := r2
          exact ih _ bits2 bud2 v r1 h

/-- Helper: a successful checked read is unaffected by appended bits. -/
theorem read_bits_checked_ext (E : List Bool) (n : ℕ) (bits : List Bool) (bud : ℕ)
    (v : ℕ) (r1 : Reader)
    (h : read_bits_checked n ⟨bits, bud⟩ = some (v, r1)) :
    read_bits_checked n ⟨bits ++ E, bud⟩ = some (v, ⟨r1.bits ++ E, r1.budget⟩) := by
  unfold read_bits_checked at h ⊢
  by_cases h0 : n = 0
  · simp only [h0, if_true, Option.some.injEq, Prod.mk.injEq] at h ⊢
    exact ⟨h.1, by rw [← h.2]⟩
  · simp only [h0, if_false] at h ⊢
    exact readBitsAux_ext E n 0 bits bud v r1 h

/-- Helper: a successful unary read is unaffected by appended bits. -/
theorem read_unary_ext (E : List Bool) :
    ∀ (limit : ℕ) (bits : List Bool) (bud : ℕ) (v : ℕ) (r1 : Reader),
      read_unary_limited limit ⟨bits, bud⟩ = some (v, r1) →
      read_unary_limited limit ⟨bits ++ E, bud⟩ = some (v, ⟨r1.bits ++ E, r1.budget⟩) := by
  intro limit
  induction limit with
  | zero =>
      intro bits bud v r1 h
      simp only [read_unary_limited, Option.some.injEq, Prod.mk.injEq] at h ⊢
      exact ⟨h.1, by rw [← h.2]⟩
  | succ limit ih =>
      intro bits bud v r1 h
      simp only [read_unary_limited] at h ⊢
      cases hb : readBit ⟨bits, bud⟩ with
      | none => rw [hb] at h; simp at h
      | some br =>
          obtain ⟨b, r2⟩ := br
          rw [hb] at h
          rw [readBit_ext E bits bud b r2 hb]
          dsimp only at h ⊢
          cases b with
          | true =>
              rw [if_pos rfl] at h ⊢
              simp only [Option.some.injEq, Prod.mk.injEq] at h ⊢
              exact ⟨h.1, by rw [← h.2]⟩
          | false =>
              rw [if_neg (by simp)] at h ⊢
              obtain ⟨bits2, bud2⟩ := r2
              cases hu : read_unary_limited limit ⟨bits2, bud2⟩ with
              | none => rw [hu] at h; simp at h
              | some ur =>
                  obtain ⟨u, r3⟩ := ur
                  rw [hu] at h
                  rw [ih bits2 bud2 u r3 hu]
                  dsimp only at h ⊢
                  simp only [Option.some.injEq, Prod.mk.injEq] at h ⊢
                  exact ⟨h.1, by rw [← h.2]⟩

/-- Helper: a successful sample decode is unaffected by appended bits. -/
theorem decode_sample_ext (E : List Bool) (p : Params) (st : GolombState)
    (ctrl : CtrlSignals) (z : ℕ) (bits : List Bool) (bud : ℕ) (v : ℕ) (r1 : Reader)
    (h : decode_sample p st ctrl z ⟨bits, bud⟩ = some (v, r1)) :
    decode_sample p st ctrl z ⟨bits ++ E, bud⟩ = some (v, ⟨r1.bits ++ E, r1.budget⟩) := by
  simp only [decode_sample] at h ⊢
  by_cases hfs : ctrl.first_line = true ∧ ctrl.first_in_line = true
  · rw [if_pos hfs] at h ⊢
    exact read_bits_checked_ext E _ bits bud v r1 h
  · rw [if_neg hfs] at h ⊢
    cases hu : read_unary_limited p.coder.u_max.toNat ⟨bits, bud⟩ with
    | none => rw [hu] at h; simp at h
    | some ur =>
        obtain ⟨u, r2⟩ := ur
        rw [hu] at h
        rw [read_unary_ext E _ bits bud u r2 hu]
        dsimp only at h ⊢
        by_cases hge : u ≥ p.coder.u_max.toNat
        · rw [if_pos hge] at h ⊢
          obtain ⟨bits2, bud2⟩ := r2
          exact read_bits_checked_ext E _ bits2 bud2 v r1 h
        · rw [if_neg hge] at h ⊢
          obtain ⟨bits2, bud2⟩ := r2
          cases hrb : read_bits_checked (select_k st.counter (golomb_rhs st z) p.D)
              ⟨bits2, bud2⟩ with
          | none => rw [hrb] at h; simp at h
          | some rr =>
              obtain ⟨rem, r3⟩ := rr
              rw [hrb] at h
              rw [read_bits_checked_ext E _ bits2 bud2 rem r3 hrb]
              dsimp only at h ⊢
              simp only [Option.some.injEq, Prod.mk.injEq] at h ⊢
              exact ⟨h.1, by rw [← h.2]⟩

/-- Helper: a successful decoder step is unaffected by appended bits. -/
theorem decodeStep_ext (E : List Bool) (p : Params) (s : ℕ) (c : CtrlCursor)
    (bs : List BandState) (g : GolombState) (bits : List Bool) (bud : ℕ) (o : List ℕ)
    (st1 : DecState)
    (h : decodeStep p s ⟨c, bs, g, ⟨bits, bud⟩, o⟩ = some st1) :
    decodeStep p s ⟨c, bs, g, ⟨bits ++ E, bud⟩, o⟩ =
      some ⟨st1.cursor, st1.bands, st1.coder, ⟨st1.reader.bits ++ E, st1.reader.budget⟩,
        st1.output⟩ := by
  simp only [decodeStep] at h ⊢
  cases hd : decode_sample p g (control_step (control_config p) c).1.ctrl
      (control_step (control_config p) c).1.z ⟨bits, bud⟩ with
  | none => rw [hd] at h; simp at h
  | some dr =>
      obtain ⟨delta, r1⟩ := dr
      rw [hd] at h
      rw [decode_sample_ext E p g _ _ bits bud delta r1 hd]
      dsimp only at h ⊢
      simp only [Option.some.injEq] at h ⊢
      rw [← h]

/-- Helper: a successful decoder loop is unaffected by appended bits. -/
theorem decodeSteps_ext (E : List Bool) (p : Params) :
    ∀ (n : ℕ) (c : CtrlCursor) (bs : List BandState) (g : GolombState)
      (bits : List Bool) (bud : ℕ) (o : List ℕ) (st1 : DecState),
      decodeSteps p n ⟨c, bs, g, ⟨bits, bud⟩, o⟩ = some st1 →
      decodeSteps p n ⟨c, bs, g, ⟨bits ++ E, bud⟩, o⟩ =
        some ⟨st1.cursor, st1.bands, st1.coder,
          ⟨st1.reader.bits ++ E, st1.reader.budget⟩, st1.output⟩ := by
  intro n
  induction n with
  | zero =>
      intro c bs g bits bud o st1 h
      simp only [decodeSteps, Option.some.injEq] at h ⊢
      rw [← h]
  | succ n ih =>
      intro c bs g bits bud o st1 h
      simp only [decodeSteps] at h ⊢
      cases hm : decodeSteps p n (⟨c, bs, g, ⟨bits, bud⟩, o⟩ : DecState) with
      | none => rw [hm] at h; simp at h
      | some st2 =>
          rw [hm] at h
          rw [ih c bs g bits bud o st2 hm]
          dsimp only at h ⊢
          obtain ⟨c2, bs2, g2, ⟨bits2, bud2⟩, o2⟩ := st2
          exact decodeStep_ext E p n c2 bs2 g2 bits2 bud2 o2 st1 h


set_option maxHeartbeats 1000000 in
/-- Helper: header parsing reads only the original bytes, so appended bytes
leave a successful parse unchanged. -/
theorem parse_header_ext (bytes extra : List ℕ) (info : HeaderInfo)
    (h : parse_header bytes = Except.ok info) :
    parse_header (bytes ++ extra) = Except.ok info := by
  unfold parse_header at h ⊢
  by_cases h30 : bytes.length < 30
  · rw [if_pos h30] at h; exact Except.noConfusion h
  · rw [if_neg h30] at h
    rw [if_neg (by rw [List.length_append]; omega)]
    have hg : ∀ i, i < 30 → (bytes ++ extra).getD i 0 = bytes.getD i 0 := by
      intro i hi
      rw [List.getD_append _ _ _ _ (by omega)]
    have hu16 : ∀ off, off + 1 < 30 → readU16 (bytes ++ extra) off = readU16 bytes off := by
      intro off hoff
      unfold readU16
      rw [hg off (by omega), hg (off + 1) (by omega)]
    by_cases hmg : bytes.getD 0 0 = 67 ∧ bytes.getD 1 0 = 49 ∧ bytes.getD 2 0 = 50 ∧
        bytes.getD 3 0 = 51
    · rw [if_neg (not_not_intro hmg)] at h
      rw [if_neg (not_not_intro ⟨by rw [hg 0 (by omega)]; exact hmg.1,
        by rw [hg 1 (by omega)]; exact hmg.2.1, by rw [hg 2 (by omega)]; exact hmg.2.2.1,
        by rw [hg 3 (by omega)]; exact hmg.2.2.2⟩)]
      by_cases hv2 : readU16 bytes 4 = 2
      · rw [if_pos hv2] at h
        rw [if_pos (by rw [hu16 4 (by omega)]; exact hv2)]
        rw [← h]
        have hu32 : readU32 (bytes ++ extra) 18 = readU32 bytes 18 := by
          unfold readU32
          rw [hg 18 (by omega), hg 19 (by omega), hg 20 (by omega), hg 21 (by omega)]
        rw [hu16 6 (by omega), hu16 8 (by omega), hu16 10 (by omega), hu16 12 (by omega),
          hu16 14 (by omega), hu16 16 (by omega), hu32]
      · rw [if_neg hv2] at h
        rw [if_neg (by rw [hu16 4 (by omega)]; exact hv2)]
        by_cases hv3 : readU16 bytes 4 ≠ 3
        · rw [if_pos hv3] at h; exact Except.noConfusion h
        · rw [if_neg hv3] at h
          rw [if_neg (by rw [hu16 4 (by omega)]; exact hv3)]
          by_cases h46 : bytes.length < 46
          · rw [if_pos h46] at h; exact Except.noConfusion h
          · rw [if_neg h46] at h
            rw [if_neg (by rw [List.length_append]; omega)]
            have hg46 : ∀ i, i < 46 → (bytes ++ extra).getD i 0 = bytes.getD i 0 := by
              intro i hi
              rw [List.getD_append _ _ _ _ (by omega)]
            have hu16b : ∀ off, off + 1 < 46 →
                readU16 (bytes ++ extra) off = readU16 bytes off := by
              intro off hoff
              unfold readU16
              rw [hg46 off (by omega), hg46 (off + 1) (by omega)]
            have hi16 : ∀ off, off + 1 < 46 →
                readI16 (bytes ++ extra) off = readI16 bytes off := by
              intro off hoff
              unfold readI16
              rw [hu16b off hoff]
            have hu32 : readU32 (bytes ++ extra) 38 = readU32 bytes 38 := by
              unfold readU32
              rw [hg46 38 (by omega), hg46 39 (by omega), hg46 40 (by omega),
                hg46 41 (by omega)]
            rw [← h]
            rw [hu16b 6 (by omega), hu16b 8 (by omega), hu16b 10 (by omega),
              hu16b 12 (by omega), hu16b 14 (by omega), hu16b 16 (by omega),
              hu16b 18 (by omega), hi16 20 (by omega), hi16 22 (by omega),
              hi16 24 (by omega), hi16 26 (by omega), hi16 28 (by omega),
              hu16b 30 (by omega), hu16b 32 (by omega), hu16b 34 (by omega),
              hu16b 36 (by omega), hu32]
    · rw [if_pos hmg] at h; exact Except.noConfusion h

/-- Helper: a successful parse guarantees the container holds its header. -/
theorem parse_header_size (bytes : List ℕ) (info : HeaderInfo)
    (h : parse_header bytes = Except.ok info) :
    (if info.version = 3 then 46 else 30) ≤ bytes.length := by
  unfold parse_header at h
  by_cases h30 : bytes.length < 30
  · rw [if_pos h30] at h; exact Except.noConfusion h
  · rw [if_neg h30] at h
    by_cases hmg : bytes.getD 0 0 = 67 ∧ bytes.getD 1 0 = 49 ∧ bytes.getD 2 0 = 50 ∧
        bytes.getD 3 0 = 51
    · rw [if_neg (not_not_intro hmg)] at h
      by_cases hv2 : readU16 bytes 4 = 2
      · rw [if_pos hv2] at h
        simp only [Except.ok.injEq] at h
        rw [← h]
        dsimp only
        rw [if_neg (by omega)]
        omega
      · rw [if_neg hv2] at h
        by_cases hv3 : readU16 bytes 4 ≠ 3
        · rw [if_pos hv3] at h; exact Except.noConfusion h
        · rw [if_neg hv3] at h
          by_cases h46 : bytes.length < 46
          · rw [if_pos h46] at h; exact Except.noConfusion h
          · rw [if_neg h46] at h
            simp only [Except.ok.injEq] at h
            rw [← h]
            dsimp only
            rw [if_pos rfl]
            omega
    · rw [if_pos hmg] at h; exact Except.noConfusion h

set_option maxHeartbeats 1000000 in
/-- C8: if a container decodes successfully, appending any extra bytes after
it decodes to the same image: every read goes through the bit reader, whose
budget is the header payload_bits field, and through fixed header offsets, so
trailing bytes are never inspected. -/
theorem c8_trailing_bytes_ignored (bytes extra : List ℕ) (p : Params) (img : List ℕ)
    (h : decode bytes p = Except.ok img) :
    decode (bytes ++ extra) p = Except.ok img := by
  unfold decode at h ⊢
  by_cases h30 : bytes.length < 30
  · rw [if_pos h30] at h; exact Except.noConfusion h
  · rw [if_neg h30] at h
    rw [if_neg (by rw [List.length_append]; omega)]
    cases hp : parse_header bytes with
    | error e => rw [hp] at h; exact Except.noConfusion h
    | ok info =>
        have hsize := parse_header_size bytes info hp
        rw [hp] at h
        rw [parse_header_ext bytes extra info hp]
        dsimp only at h ⊢
        rw [List.drop_append_of_le_length hsize]
        have hsplit : ∀ l : List ℕ,
            unpackBits (l ++ extra) = unpackBits l ++ unpackBits extra := by
          intro l
          unfold unpackBits
          rw [List.flatMap_append]
        split_ifs at h ⊢ <;> try exact Except.noConfusion h
        all_goals (
          simp only [dec_init] at h ⊢
          rw [hsplit]
          split at h <;>
            first
              | exact Except.noConfusion h
              | (rename_i st heq
                 rw [decodeSteps_ext (unpackBits extra) _ _ _ _ _ _ _ _ _ heq]
                 dsimp only
                 exact h))


/-- C8 witness: the single-sample container with one trailing byte. -/
theorem c8_trailing_bytes_ignored_witness :
    decode ((headerV3Bytes paramsSingle 8 ++
        byteify (encode_payload_bits paramsSingle [128])) ++ [0]) paramsSingle =
      Except.ok [128] :=
  c8_trailing_bytes_ignored _ [0] paramsSingle [128] (by decide)


end Ccsds123
